import Mathlib

/- Verification of the sample-tester repository core: the manifest generator
   (gen_manifest/gen_manifest.py) and the document classification engine
   (sampletester/parser.py, sampletester/inputs.py), shallowly embedded in
   Lean 4.  Strings are manipulated through their character lists so that all
   definitions evaluate by kernel reduction. -/

namespace SampleTester

/-- Lexicographic comparison of character lists by code point, the order
Python uses when sorting a list of strings. -/
def lexLe : List Char → List Char → Bool
  | [], _ => true
  | _ :: _, [] => false
  | a :: as, b :: bs =>
    if a.toNat < b.toNat then true
    else if a.toNat = b.toNat then lexLe as bs
    else false

/-- String comparison by code points (Python string order). -/
def strLe (a b : String) : Bool := lexLe a.data b.data

/-- Inserting a string into an already sorted list, keeping it sorted. -/
def insertStr (x : String) : List String → List String
  | [] => [x]
  | y :: ys => if strLe x y then x :: y :: ys else y :: insertStr x ys

/-- Sorting a list of strings in Python string order (the effect of
list.sort on a list of str). -/
def sortStrs : List String → List String
  | [] => []
  | x :: xs => insertStr x (sortStrs xs)

/-- Python substring membership: containsSub needle hay is true iff needle
occurs contiguously inside hay (the Python expression needle in hay). -/
def containsSub (needle : List Char) : List Char → Bool
  | [] => needle.isEmpty
  | c :: cs => needle.isPrefixOf (c :: cs) || containsSub needle cs

/-- String version of containsSub. -/
def strContains (hay needle : String) : Bool := containsSub needle.data hay.data

/-- Kernel-reducible startsWith on strings. -/
def strStartsWith (s pre : String) : Bool := pre.data.isPrefixOf s.data

/-- Kernel-reducible endsWith on strings. -/
def strEndsWith (s post : String) : Bool := post.data.isSuffixOf s.data

/-- Index of the last occurrence of character c in cs (Python str.rfind),
as an Option. -/
def lastIdxOf (c : Char) (cs : List Char) : Option Nat :=
  (List.range cs.length).foldl
    (fun acc i => if cs.getD i ' ' = c then some i else acc) none

/-- os.path.splitext on character lists, following the CPython algorithm:
split at the last dot that lies after the last path separator, unless every
character between the separator and that dot is itself a dot (so that a
leading-dot file name such as .yaml has no extension). -/
def splitextCh (p : List Char) : List Char × List Char :=
  let sepIdx : Int := match lastIdxOf '/' p with | none => -1 | some i => (i : Int)
  let dotIdx : Int := match lastIdxOf '.' p with | none => -1 | some i => (i : Int)
  if sepIdx < dotIdx then
    let nameRun := (p.drop (sepIdx + 1).toNat).take (dotIdx - sepIdx - 1).toNat
    if nameRun.all (fun c => c = '.') then (p, [])
    else (p.take dotIdx.toNat, p.drop dotIdx.toNat)
  else (p, [])

/-- os.path.splitext on strings. -/
def splitext (s : String) : String × String :=
  let r := splitextCh s.data
  (String.mk r.1, String.mk r.2)

/-- os.path.join restricted to two components, with posix rules: an absolute
second component replaces the first, otherwise a separator is inserted
unless the first component is empty or already ends in one. -/
def osJoin (a b : String) : String :=
  if b.data.head? = some '/' then b
  else if a = "" then a ++ b
  else if a.data.getLast? = some '/' then a ++ b
  else a ++ "/" ++ b

/- ----------------------------------------------------------------------
   gen_manifest/gen_manifest.py
   ---------------------------------------------------------------------- -/

/-- Constant ALL_LANGS from gen_manifest.py. -/
def ALL_LANGS : List String := ["python", "java", "csharp", "nodejs", "ruby", "php", "go"]

/-- Constant BASEPATH_KEY from gen_manifest.py. -/
def BASEPATH_KEY : String := "basepath"

/-- Constant BASEPATH_DEFAULT from gen_manifest.py. -/
def BASEPATH_DEFAULT : String := "."

/-- Constant BIN_KEY from gen_manifest.py. -/
def BIN_KEY : String := "bin"

/-- Constant INVOCATION_KEY from gen_manifest.py. -/
def INVOCATION_KEY : String := "invocation"

/-- Exception classes of gen_manifest.py (the GenManifestError hierarchy),
each carrying its message. -/
inductive GErr where
  | TagNameError (msg : String)
  | RegionTagError (msg : String)
  | NotRegularFileError (msg : String)
  | UnrecognizedLanguageError (msg : String)
deriving DecidableEq, Repr

/-- Message carried by a GenManifestError. -/
def errText : GErr → String
  | .TagNameError m => m
  | .RegionTagError m => m
  | .NotRegularFileError m => m
  | .UnrecognizedLanguageError m => m

/-- Filesystem environment seen by gen_manifest: the results of recursive
globbing (glob(pattern, recursive=True)), the os.path.isfile predicate, the
text content of each file, and the current working directory. -/
structure GFS where
  globResults : String → List String
  isFile : String → Bool
  fileText : String → String
  cwd : String

/-- Observable side effects of a gen_manifest run: glob patterns expanded,
files opened for reading, and strings written to stderr, each in order. -/
structure Trace where
  globbed : List String
  readFiles : List String
  stderrOut : List String
deriving DecidableEq, Repr

/-- The empty effect trace. -/
def Trace.empty : Trace := ⟨[], [], []⟩

/-- Effect monad for gen_manifest: Python exceptions become ExceptT, the
effect trace is threaded as state (effects performed before an exception
was raised persist, as in Python). -/
abbrev GenM (α : Type) := ExceptT GErr (StateM Trace) α

/-- Runs a GenM computation on an initial trace. -/
def runG (m : GenM α) (t : Trace) : Except GErr α × Trace := (m.run).run t

/-- Records the expansion of one glob pattern. -/
def logGlob (p : String) : GenM Unit :=
  fun t => (Except.ok (), { t with globbed := t.globbed ++ [p] })

/-- Records that a file was opened and read. -/
def logRead (p : String) : GenM Unit :=
  fun t => (Except.ok (), { t with readFiles := t.readFiles ++ [p] })

/-- Records one sys.stderr.write call. -/
def writeStderr (s : String) : GenM Unit :=
  fun t => (Except.ok (), { t with stderrOut := t.stderrOut ++ [s] })

/-- Character class [a-zA-Z0-9_] of the region-tag regular expressions. -/
def isWordChar (c : Char) : Bool :=
  (97 ≤ c.toNat && c.toNat ≤ 122) || (65 ≤ c.toNat && c.toNat ≤ 90) ||
  (48 ≤ c.toNat && c.toNat ≤ 57) || c = '_'

/-- Drops marker as a literal prefix of cs, or fails. -/
def dropPre : List Char → List Char → Option (List Char)
  | [], cs => some cs
  | _ :: _, [] => none
  | p :: ps, c :: cs => if p = c then dropPre ps cs else none

/-- Splits off the longest leading run of word characters (the greedy
match of [a-zA-Z0-9_]*). -/
def takeWordRun : List Char → List Char × List Char
  | [] => ([], [])
  | c :: cs =>
    if isWordChar c then
      let r := takeWordRun cs
      (c :: r.1, r.2)
    else ([], c :: cs)

/-- Attempts to match the regular expression marker([a-zA-Z0-9_]*)] at the
start of cs, returning the captured group and the remainder after the match.
Since the character class excludes the closing bracket, the greedy star
never backtracks usefully, so greedy-then-check is exact. -/
def matchMarkerAt (marker cs : List Char) : Option (String × List Char) :=
  match dropPre marker cs with
  | none => none
  | some rest =>
    let r := takeWordRun rest
    match r.2 with
    | ']' :: r2 => some (String.mk r.1, r2)
    | _ => none

theorem dropPre_length_le :
    ∀ (m cs r : List Char), dropPre m cs = some r → r.length ≤ cs.length := by
  intro m
  induction m with
  | nil => intro cs r h; simp [dropPre] at h; simp [h]
  | cons p ps ih =>
    intro cs r h
    cases cs with
    | nil => simp [dropPre] at h
    | cons c cs' =>
      simp only [dropPre] at h
      by_cases hpc : p = c
      · simp [hpc] at h
        exact Nat.le_succ_of_le (ih cs' r h)
      · simp [hpc] at h

theorem takeWordRun_snd_le : ∀ cs : List Char, (takeWordRun cs).2.length ≤ cs.length := by
  intro cs
  induction cs with
  | nil => simp [takeWordRun]
  | cons c cs' ih =>
    simp only [takeWordRun]
    by_cases hw : isWordChar c
    · simp [hw]; exact Nat.le_succ_of_le ih
    · simp [hw]

theorem matchMarkerAt_lt {marker cs : List Char} {w : String} {r2 : List Char}
    (h : matchMarkerAt marker cs = some (w, r2)) : r2.length < cs.length := by
  unfold matchMarkerAt at h
  cases hd : dropPre marker cs with
  | none => rw [hd] at h; simp at h
  | some rest =>
    rw [hd] at h
    simp only at h
    cases hr : (takeWordRun rest).2 with
    | nil => rw [hr] at h; simp at h
    | cons c0 rest2 =>
      rw [hr] at h
      by_cases hc : c0 = ']'
      · subst hc
        simp at h
        obtain ⟨-, hr2⟩ := h
        subst hr2
        have h1 : rest2.length < rest.length := by
          have := takeWordRun_snd_le rest
          rw [hr] at this
          simp at this
          omega
        have h2 := dropPre_length_le marker cs rest hd
        omega
      · simp [hc] at h

/-- Fuel-indexed scanner behind findMarkerIds; the fuel only bounds the
recursion depth and is immaterial once it is at least the input length
(theorem findMarkerIdsAux_fuel below), which matchMarkerAt_lt guarantees. -/
def findMarkerIdsAux (marker : List Char) : Nat → List Char → List String
  | 0, _ => []
  | _ + 1, [] => []
  | fuel + 1, c :: cs =>
    match matchMarkerAt marker (c :: cs) with
    | some (w, r2) => w :: findMarkerIdsAux marker fuel r2
    | none => findMarkerIdsAux marker fuel cs

/-- re.findall of the region-tag expression: scans left to right, collecting
non-overlapping matches and continuing after each match, advancing one
character after each failed position. -/
def findMarkerIds (marker : List Char) (s : List Char) : List String :=
  findMarkerIdsAux marker s.length s

theorem findMarkerIdsAux_fuel (marker : List Char) :
    ∀ (fuel fuel2 : Nat) (s : List Char), s.length ≤ fuel → s.length ≤ fuel2 →
      findMarkerIdsAux marker fuel s = findMarkerIdsAux marker fuel2 s := by
  intro fuel
  induction fuel with
  | zero =>
    intro fuel2 s h1 _
    have hs : s = [] := List.length_eq_zero.mp (Nat.le_zero.mp h1)
    subst hs
    cases fuel2 <;> rfl
  | succ f ih =>
    intro fuel2 s h1 h2
    cases s with
    | nil => cases fuel2 <;> rfl
    | cons c cs =>
      cases fuel2 with
      | zero => simp at h2
      | succ f2 =>
        simp only [findMarkerIdsAux]
        cases hm : matchMarkerAt marker (c :: cs) with
        | none =>
          have hl : cs.length ≤ f := by simp at h1; omega
          have hl2 : cs.length ≤ f2 := by simp at h2; omega
          exact ih f2 cs hl hl2
        | some p =>
          obtain ⟨w, r2⟩ := p
          have hlt := matchMarkerAt_lt hm
          have hl : r2.length ≤ f := by simp at h1 hlt; omega
          have hl2 : r2.length ≤ f2 := by simp at h2 hlt; omega
          simp only []
          rw [ih f2 r2 hl hl2]

/-- Literal part of the start-marker regular expression. -/
def startMarker : List Char := "[START ".data

/-- Literal part of the end-marker regular expression. -/
def endMarker : List Char := "[END ".data

/-- Qualifying region-tag ids of a sample text: start-marker ids that do not
contain the substring core and that also occur among the end-marker ids, in
order of the start markers (the loop body of get_region_tag). -/
def regionTagsOf (text : String) : List String :=
  let starts := findMarkerIds startMarker text.data
  let ends := findMarkerIds endMarker text.data
  starts.filter (fun srt => !containsSub "core".data srt.data && ends.contains srt)

/-- get_region_tag: extracts the region tag from the given sample file;
errors if the path is not a regular file or if the number of qualifying
region tags found is not exactly one. -/
def get_region_tag (fs : GFS) (sample_file_path : String) : GenM String := do
  if fs.isFile sample_file_path then
    logRead sample_file_path
    match regionTagsOf (fs.fileText sample_file_path) with
    | [] => throw (GErr.RegionTagError ("Found no region tags in " ++ sample_file_path ++ "."))
    | [t] => pure t
    | _ => throw (GErr.RegionTagError ("Found too many region tags in " ++ sample_file_path ++ "."))
  else
    throw (GErr.NotRegularFileError ("not a regular file: \"" ++ sample_file_path ++ "\""))

/-- Extension filter of glob_non_yaml: keeps a match unless its extension
is .yaml or .yml. -/
def nonYamlExt (path : String) : Bool :=
  (splitext path).2 != ".yaml" && (splitext path).2 != ".yml"

/-- glob_non_yaml: recursively globs for pattern, discarding matches whose
extension is .yaml or .yml. -/
def glob_non_yaml (fs : GFS) (pattern : String) : GenM (List String) := do
  logGlob pattern
  pure ((fs.globResults pattern).filter nonYamlExt)

/-- Concatenated glob expansion of a list of patterns after the yaml/yml
filter: the samples the emitters iterate over, in order and with
multiplicity. -/
def matchedFiles (fs : GFS) : List String → List String
  | [] => []
  | s :: rest => (fs.globResults s).filter nonYamlExt ++ matchedFiles fs rest

/-- Python str.join on a list of strings. -/
def joinWith (sep : String) : List String → String
  | [] => ""
  | [x] => x
  | x :: y :: rest => x ++ sep ++ joinWith sep (y :: rest)

/-- Message format of TagNameError raised by forbid_names. -/
def forbidNamesMessage (found : List String) : String :=
  "the following tag names are reserved because they are auto-generated, " ++
  "given the other options specified: " ++
  joinWith " " (found.map (fun f => "\"" ++ f ++ "\""))

/-- Offending tag names collected by forbid_names, in order. -/
def offendingNames (tags : List (String × String)) (forbidden_names : List String) : List String :=
  (tags.map (fun nv => nv.1)).filter (fun name => forbidden_names.contains name)

/-- forbid_names: raises TagNameError if any tag name is forbidden, listing
every offending name in the message. -/
def forbid_names (tags : List (String × String)) (forbidden_names : List String) : GenM Unit :=
  let found := offendingNames tags forbidden_names
  if found.isEmpty then pure ()
  else throw (GErr.TagNameError (forbidNamesMessage found))

/-- escape: doubles single-quote characters for inclusion in a YAML
single-quoted scalar (text.replace of one quote by two). -/
def escape (text : String) : String :=
  String.mk (escapeChars text.data)
where
  escapeChars : List Char → List Char
    | [] => []
    | c :: cs => if c = '\x27' then c :: c :: escapeChars cs else c :: escapeChars cs

/-- Wraps a string in single quotes. -/
def sq (s : String) : String := "\x27" ++ s ++ "\x27"

/-- First stderr line of the bin-deprecation warning. -/
def deprecationMsg1 : String :=
  "# For invoking samples via sample-tester, the use of \"bin\" " ++
  "is deprecated in favor of \"invocation\"."

/-- Second stderr line of the bin-deprecation warning. -/
def deprecationMsg2 : String :=
  "# See https://sample-tester.readthedocs.io/en/stable/" ++
  "defining-tests/manifest-reference.html#tags-for-sample-tester"

/-- The two sys.stderr.write calls of the bin-deprecation warning. -/
def emitDeprecationWarning : GenM Unit := do
  writeStderr deprecationMsg1
  writeStderr deprecationMsg2

/-- Association-list model of a Python dict preserving insertion order:
setting an existing key updates its value in place, a new key is appended
at the end. -/
def alSet {α : Type} (l : List (String × α)) (k : String) (v : α) : List (String × α) :=
  match l with
  | [] => [(k, v)]
  | (k0, v0) :: rest => if k0 = k then (k0, v) :: rest else (k0, v0) :: alSet rest k v

/-- dict.get with a default value. -/
def alGetD {α : Type} (l : List (String × α)) (k : String) (dflt : α) : α :=
  match l with
  | [] => dflt
  | (k0, v0) :: rest => if k0 = k then v0 else alGetD rest k dflt

/-- Python key-membership test on the dict model. -/
def alHasKey {α : Type} (l : List (String × α)) (k : String) : Bool :=
  match l with
  | [] => false
  | (k0, _) :: rest => k0 == k || alHasKey rest k

/-- One line of the factored v3 base block or of a flat v3 entry body. -/
def tagLine (indent name value : String) : String :=
  indent ++ name ++ ": " ++ sq (escape value)

/-- Tag loop of create_factored_manifest_v3: appends one base-block line
per tag and accumulates the basepath/bin/invocation flags. -/
def factoredTagStep (acc : List String × Bool × Bool × Bool) (nv : String × String) :
    List String × Bool × Bool × Bool :=
  (acc.1 ++ [tagLine "  " nv.1 nv.2],
   acc.2.1 || nv.1 == BASEPATH_KEY,
   acc.2.2.1 || nv.1 == BIN_KEY,
   acc.2.2.2 || nv.1 == INVOCATION_KEY)

/-- Per-sample body of the factored glob loop: three emitted lines. -/
def factoredSampleStep (fs : GFS) (ls2 : List String) (sample_relative_path : String) :
    GenM (List String) := do
  let sample_absolute_path := osJoin fs.cwd sample_relative_path
  let tag ← get_region_tag fs sample_absolute_path
  pure (ls2 ++
    ["- <<: *common",
     "  path: " ++ "\x27\x7b" ++ BASEPATH_KEY ++ "\x7d/" ++
       escape sample_relative_path ++ "\x27",
     "  sample: " ++ sq tag])

/-- Glob loop of create_factored_manifest_v3, appending the per-sample
lines to the accumulated line list. -/
def factoredLoop (fs : GFS) (sample_globs : List String) (lines : List String) :
    GenM (List String) :=
  sample_globs.foldlM
    (fun (ls : List String) s => do
      let ms ← glob_non_yaml fs s
      ms.foldlM (factoredSampleStep fs) ls)
    lines

/-- create_factored_manifest_v3: emits the header and shared base block,
then one three-line entry per globbed sample, then the deprecation warning
when a bin tag appears without an invocation tag. -/
def create_factored_manifest_v3 (fs : GFS) (tags : List (String × String))
    (sample_globs : List String) : GenM String := do
  let lines0 : List String := ["type: manifest/samples", "schema_version: 3", "base: &common"]
  forbid_names tags ["sample", "path"]
  let folded := tags.foldl factoredTagStep (lines0, false, false, false)
  let have_basepath := folded.2.1
  let have_bin := folded.2.2.1
  let have_invocation := folded.2.2.2
  let lines1 :=
    if !have_basepath then folded.1 ++ [tagLine "  " BASEPATH_KEY BASEPATH_DEFAULT]
    else folded.1
  let lines2 := lines1 ++ ["samples:"]
  let lines3 ← factoredLoop fs sample_globs lines2
  if have_bin && !have_invocation then emitDeprecationWarning
  pure ("\n".intercalate lines3 ++ "\n")

/-- One step of the per-sample tag loop of create_flat_manifest_v3: a
basepath tag overrides the basepath and is skipped, any other tag is
dict-updated into the entry body and may set the bin/invocation flags. -/
def flatTagStep (acc : Option String × List (String × String) × Bool × Bool)
    (nv : String × String) : Option String × List (String × String) × Bool × Bool :=
  if nv.1 == BASEPATH_KEY then (some nv.2, acc.2.1, acc.2.2.1, acc.2.2.2)
  else
    (acc.1, alSet acc.2.1 nv.1 nv.2,
     acc.2.2.1 || nv.1 == BIN_KEY,
     acc.2.2.2 || nv.1 == INVOCATION_KEY)

/-- The per-sample loop over tags of create_flat_manifest_v3: computes the
basepath override, the entry body in tag order with dict-update semantics,
and the accumulated bin/invocation flags. -/
def flatTagFold (tags : List (String × String)) (hbin hinv : Bool) :
    Option String × List (String × String) × Bool × Bool :=
  tags.foldl flatTagStep (none, [], hbin, hinv)

/-- Python falsiness of the basepath variable: None or the empty string
falls back to BASEPATH_DEFAULT. -/
def basepathOrDefault (bp : Option String) : String :=
  match bp with
  | none => BASEPATH_DEFAULT
  | some v => if v = "" then BASEPATH_DEFAULT else v

/-- Rendering of one flat v3 entry: the first key/value line is prefixed by
the list dash, subsequent lines by plain indentation. -/
def renderFlatEntry (entry : List (String × String)) : List String :=
  match entry with
  | [] => []
  | kv :: rest => tagLine "- " kv.1 kv.2 :: rest.map (fun kv2 => tagLine "  " kv2.1 kv2.2)

/-- Per-sample body of the flat glob loop: builds one self-contained entry
(the path and sample fields followed by the dict-updated tag body) and
updates the bin/invocation flags. -/
def flatSampleStep (fs : GFS) (tags : List (String × String))
    (acc2 : List (List (String × String)) × Bool × Bool) (sample : String) :
    GenM (List (List (String × String)) × Bool × Bool) := do
  let tf := flatTagFold tags acc2.2.1 acc2.2.2
  let basepath := basepathOrDefault tf.1
  let sample_path := osJoin fs.cwd sample
  let tagid ← get_region_tag fs sample_path
  let entry0 : List (String × String) :=
    [("path", osJoin basepath sample), ("sample", tagid)]
  let entry := tf.2.1.foldl (fun e kv => alSet e kv.1 kv.2) entry0
  pure (acc2.1 ++ [entry], tf.2.2.1, tf.2.2.2)

/-- The glob-and-build loop of create_flat_manifest_v3, accumulating the
entry list and the bin/invocation flags (which are only updated inside the
per-sample tag loop, hence stay false when no sample matches). -/
def flatLoop (fs : GFS) (tags : List (String × String)) (sample_globs : List String) :
    GenM (List (List (String × String)) × Bool × Bool) :=
  sample_globs.foldlM
    (fun (acc : List (List (String × String)) × Bool × Bool) s => do
      let ms ← glob_non_yaml fs s
      ms.foldlM (flatSampleStep fs tags) acc)
    ([], false, false)

/-- Effect-free kernel of get_region_tag: the extracted id when the path is
a regular file with exactly one qualifying region tag, none otherwise. -/
def pureRegionTag (fs : GFS) (p : String) : Option String :=
  if fs.isFile p then
    match regionTagsOf (fs.fileText p) with
    | [t] => some t
    | _ => none
  else none

/-- Extraction result of the sample at relative path m, as a total
function (meaningful when pureRegionTag succeeds). -/
def extOf (fs : GFS) (m : String) : String :=
  (pureRegionTag fs (osJoin fs.cwd m)).getD ""

/-- Basepath a flat v3 entry resolves against: the last basepath tag value
if truthy, BASEPATH_DEFAULT otherwise. -/
def flatBasepath (tags : List (String × String)) : String :=
  basepathOrDefault (flatTagFold tags false false).1

/-- The flat v3 entry built for sample m with extracted id tagid. -/
def entryFor (tags : List (String × String)) (m tagid : String) : List (String × String) :=
  let tf := flatTagFold tags false false
  (tf.2.1).foldl (fun e kv => alSet e kv.1 kv.2)
    [("path", osJoin (basepathOrDefault tf.1) m), ("sample", tagid)]

/-- create_flat_manifest_v3: emits one fully self-contained entry per
globbed sample, then the deprecation warning when a bin tag was seen
without an invocation tag. -/
def create_flat_manifest_v3 (fs : GFS) (tags : List (String × String))
    (sample_globs : List String) : GenM String := do
  forbid_names tags ["sample", "path"]
  let folded ← flatLoop fs tags sample_globs
  let lines0 : List String := ["type: manifest/samples", "schema_version: 3", "samples:"]
  let lines := folded.1.foldl (fun ls entry => ls ++ renderFlatEntry entry) lines0
  if folded.2.1 && !folded.2.2 then emitDeprecationWarning
  pure ("\n".intercalate lines ++ "\n")

/-- emit_manifest_v3: dispatches to the flat or factored creator. -/
def emit_manifest_v3 (fs : GFS) (tags : List (String × String))
    (sample_globs : List String) (flat : Bool) : GenM String :=
  if flat then create_flat_manifest_v3 fs tags sample_globs
  else create_factored_manifest_v3 fs tags sample_globs

/-- Structured value of a v2 manifest: the single environment block (string
fields in insertion order, ending with the path field) and its items list
of path/sample pairs. -/
structure ManifestV2 where
  envBlock : List (String × String)
  items : List (String × String)
deriving DecidableEq, Repr

/-- Python repr of a list of strings, used in the v2 unknown-language
message. -/
def pyStrListRepr (l : List String) : String :=
  "[" ++ ", ".intercalate (l.map (fun s => "\x27" ++ s ++ "\x27")) ++ "]"

/-- Message of UnrecognizedLanguageError. -/
def unknownLangMessage (value : String) : String :=
  "unknown language \"" ++ value ++ "\": env should be one of " ++ pyStrListRepr ALL_LANGS

/-- Per-sample body of the v2 item loop: one path/sample pair. -/
def v2SampleStep (fs : GFS) (its : List (String × String)) (sample : String) :
    GenM (List (String × String)) := do
  let t ← get_region_tag fs (osJoin fs.cwd sample)
  pure (its ++ [(sample, t)])

/-- path_sample_pairs_v2: one path/sample pair per globbed sample. -/
def path_sample_pairs_v2 (fs : GFS) (sample_globs : List String) :
    GenM (List (String × String)) :=
  sample_globs.foldlM
    (fun (items : List (String × String)) s => do
      let ms ← glob_non_yaml fs s
      ms.foldlM (v2SampleStep fs) items)
    []

/-- One step of the v2 tag loop: a basepath tag overrides the basepath, an
env tag is validated against ALL_LANGS and renamed to environment, any
other tag is dict-updated into the environment block. -/
def v2TagStep (acc : Option String × List (String × String)) (nv : String × String) :
    GenM (Option String × List (String × String)) := do
  if nv.1 == BASEPATH_KEY then pure ((some nv.2 : Option String), acc.2)
  else if nv.1 == "env" then
    if !(ALL_LANGS.contains nv.2) then
      throw (GErr.UnrecognizedLanguageError (unknownLangMessage nv.2))
    else pure (acc.1, alSet acc.2 "environment" nv.2)
  else pure (acc.1, alSet acc.2 nv.1 nv.2)

/-- create_manifest_v2: folds the tags into one environment block, renaming
a tag named env to environment after validating its value against
ALL_LANGS, appends the path field, and attaches the globbed items. -/
def create_manifest_v2 (fs : GFS) (tags : List (String × String))
    (sample_globs : List String) : GenM ManifestV2 := do
  let folded ← tags.foldlM v2TagStep ((none : Option String), [])
  let basepath := basepathOrDefault folded.1
  let environment := alSet folded.2 "path" (basepath ++ "/")
  let items ← path_sample_pairs_v2 fs sample_globs
  pure { envBlock := environment, items := items }

/-- Rendering of a v2 manifest to YAML text.  The Python code feeds the
structured value to the generic pyyaml dumper; no verified claim depends on
the exact v2 text, so this is a fixed deterministic serialization of the
same structured data. -/
def dump (m : ManifestV2) : String :=
  "version: 2\nsets:\n" ++
  String.join (m.envBlock.map (fun kv => "  " ++ kv.1 ++ ": " ++ kv.2 ++ "\n")) ++
  "  __items__:\n" ++
  String.join (m.items.map (fun ps => "  - path: " ++ ps.1 ++ "\n    sample: " ++ ps.2 ++ "\n"))

/-- emit_manifest_v2: checks the forbidden names, then dumps the created v2
manifest (the flat option is accepted and ignored). -/
def emit_manifest_v2 (fs : GFS) (tags : List (String × String))
    (sample_globs : List String) (_flat : Bool) : GenM String := do
  forbid_names tags ["sample", "path"]
  let m ← create_manifest_v2 fs tags sample_globs
  pure (dump m)

/-- str.split with separator = and maxsplit 1, on character lists: the part
before the first equals sign, and the remainder when one exists. -/
def splitFirstEqCh : List Char → List Char × Option (List Char)
  | [] => ([], none)
  | c :: cs =>
    if c = '=' then ([], some cs)
    else
      let r := splitFirstEqCh cs
      (c :: r.1, r.2)

/-- Tag parsed from one double-dash token body. -/
def tagOfBody (body : List Char) : String × String :=
  let r := splitFirstEqCh body
  (String.mk r.1, match r.2 with | none => "" | some vc => String.mk vc)

/-- Loop body of parse_files_and_tags: tokens starting with the double-dash
tag marker become tag pairs, all other tokens become file arguments. -/
def parseStep (acc : List String × List (String × String)) (current : String) :
    List String × List (String × String) :=
  if strStartsWith current "--" then
    (acc.1, acc.2 ++ [tagOfBody (current.data.drop 2)])
  else (acc.1 ++ [current], acc.2)

/-- parse_files_and_tags: partitions the flat token list into file arguments
and tag pairs, keeping tag order and sorting the files. -/
def parse_files_and_tags (params : List String) : List String × List (String × String) :=
  let folded := params.foldl parseStep ([], [])
  (sortStrs folded.1, folded.2)

/-- Outcome of one CLI invocation of the generator: the exit code, the
lines printed by print, the file written (path and full content) if any,
the text written to stdout if any, and the emitter effect trace. -/
structure MainResult where
  exitCode : Nat
  printed : List String
  fileWritten : Option (String × String)
  stdoutText : Option String
  trace : Trace
deriving DecidableEq, Repr

/-- The registered_emitters dispatch table, keyed by schema version. -/
def registered_emitter (schema_version : String) :
    GFS → List (String × String) → List String → Bool → GenM String :=
  if schema_version = "2" then emit_manifest_v2 else emit_manifest_v3

/-- main: parses the positional arguments, runs the selected emitter, and
either writes the complete serialized manifest to the output file or to
stdout with exit code 0, or on a GenManifestError prints the message and
exits with code 2 without writing anything. -/
def mainModel (fs : GFS) (schema_version output : String) (flat : Bool)
    (files_and_tags : List String) : MainResult :=
  let p := parse_files_and_tags files_and_tags
  match runG (registered_emitter schema_version fs p.2 p.1 flat) Trace.empty with
  | (Except.ok serialized, t) =>
    if output ≠ "-" then
      { exitCode := 0, printed := [], fileWritten := some (output, serialized),
        stdoutText := none, trace := t }
    else
      { exitCode := 0, printed := [], fileWritten := none,
        stdoutText := some serialized, trace := t }
  | (Except.error e, t) =>
    { exitCode := 2, printed := ["ERROR: " ++ errText e], fileWritten := none,
      stdoutText := none, trace := t }

/- ----------------------------------------------------------------------
   sampletester/parser.py
   ---------------------------------------------------------------------- -/

/-- Constant SCHEMA_TYPE_KEY from parser.py. -/
def SCHEMA_TYPE_KEY : String := "type"

/-- Constant SCHEMA_TYPE_ABSENT from parser.py, the index key of documents
without a usable type field. -/
def SCHEMA_TYPE_ABSENT : String := "(no type)"

/-- Value of the top-level type field of a parsed YAML document, abstracted
to the cases parser.py distinguishes: field absent (or the document is not
a mapping), field present but not a string (carrying the Python repr of the
value and its truthiness), or a string value. -/
inductive TypeField where
  | absent
  | nonString (reprStr : String) (truthy : Bool)
  | strVal (s : String)
deriving DecidableEq, Repr

/-- The Document named tuple of parser.py: an origin path and the parsed
object, the latter abstracted to its top-level type field. -/
structure Document where
  path : String
  typeField : TypeField
deriving DecidableEq, Repr

/-- The keyed_docs mapping of IndexedDocs: an insertion-ordered dict from
schema-type name to the list of documents of that type. -/
abbrev KeyedDocs := List (String × List Document)

/-- Part of a string before the first slash (str.split with maxsplit 1,
first component). -/
def takeUntilSlashCh : List Char → List Char
  | [] => []
  | c :: cs => if c = '/' then [] else c :: takeUntilSlashCh cs

/-- Coarse type name: the part of the type value before the first
SCHEMA_TYPE_SEPARATOR. -/
def coarseTypeName (s : String) : String := String.mk (takeUntilSlashCh s.data)

/-- Python falsiness of the specified type value (None, a falsy non-string,
or the empty string). -/
def specifiedTypeFalsy : TypeField → Bool
  | .absent => true
  | .nonString _ truthy => !truthy
  | .strVal s => s = ""

/-- Whether the specified type value fails the isinstance(str) test. -/
def specifiedTypeNonString : TypeField → Bool
  | .strVal _ => false
  | _ => true

/-- Index key a document is filed under in non-strict mode: the coarse type
name for string-typed documents, SCHEMA_TYPE_ABSENT otherwise. -/
def docTypeName (tf : TypeField) : String :=
  match tf with
  | .strVal s => coarseTypeName s
  | _ => SCHEMA_TYPE_ABSENT

/-- _add_one: appends the document to the list stored under the type name,
creating the key (at the end of the dict) when it is missing. -/
def addOneDoc (st : KeyedDocs) (type_name : String) (doc : Document) : KeyedDocs :=
  alSet st type_name (alGetD st type_name [] ++ [doc])

/-- Strict-mode message for a missing type field. -/
def noTypeMsg : String := "no top-level \"" ++ SCHEMA_TYPE_KEY ++ "\" field specified"

/-- Strict-mode message for a non-string type field, showing the Python
repr of the offending value. -/
def notStringMsg (tf : TypeField) : String :=
  "top level \"" ++ SCHEMA_TYPE_KEY ++ "\" field is not a string: " ++
  (match tf with
   | .absent => "None"
   | .nonString r _ => r
   | .strVal s => s)

/-- Skip condition of the resolver loop: the resolver returned a falsy
(empty) type or SCHEMA_TYPE_ABSENT, so the document stays unclassified. -/
def skipsDoc (r : Document → String) (u : Document) : Bool :=
  r u == "" || r u == SCHEMA_TYPE_ABSENT

/-- Loop body of resolve_uncategorized: a skipped document is kept in the
unknown list, any other document is moved under its new type. -/
def resolveStep (r : Document → String) (acc : KeyedDocs × List Document) (u : Document) :
    KeyedDocs × List Document :=
  if skipsDoc r u then (acc.1, acc.2 ++ [u])
  else (addOneDoc acc.1 (r u) u, acc.2)

/-- resolve_uncategorized: with no resolver does nothing; otherwise calls
the resolver on every currently-unclassified document, moves each document
for which it returns a non-empty type other than SCHEMA_TYPE_ABSENT into
that type's list, and stores the remaining documents back under
SCHEMA_TYPE_ABSENT (creating that key even when nothing was unclassified). -/
def resolve_uncategorized (resolver : Option (Document → String)) (st : KeyedDocs) :
    KeyedDocs :=
  match resolver with
  | none => st
  | some r =>
    let unknowns := alGetD st SCHEMA_TYPE_ABSENT []
    let folded := unknowns.foldl (resolveStep r) (st, [])
    alSet folded.1 SCHEMA_TYPE_ABSENT folded.2

/-- Classification pass of add_documents in non-strict mode: files each
document under its computed type name, in order. -/
def classifyAll (st : KeyedDocs) (documents : List Document) : KeyedDocs :=
  documents.foldl (fun st2 doc => addOneDoc st2 (docTypeName doc.typeField) doc) st

/-- add_documents: files each document under the right schema-type key,
raising the strict-mode SyntaxError for missing or non-string type fields
when strict is set, and finally runs resolve_uncategorized.  (On a
strict-mode error Python leaves the partially-updated object behind; the
claims below only concern non-strict stores, where no error is possible.) -/
def add_documents (strict : Bool) (resolver : Option (Document → String))
    (st : KeyedDocs) (documents : List Document) : Except String KeyedDocs := do
  let st1 ← documents.foldlM
    (fun st2 doc => do
      if strict && specifiedTypeFalsy doc.typeField then
        throw noTypeMsg
      else if strict && specifiedTypeNonString doc.typeField then
        throw (notStringMsg doc.typeField)
      else
        pure (addOneDoc st2 (docTypeName doc.typeField) doc))
    st
  pure (resolve_uncategorized resolver st1)

/-- Non-strict add_documents as a total function. -/
def add_documents_ns (resolver : Option (Document → String))
    (st : KeyedDocs) (documents : List Document) : KeyedDocs :=
  resolve_uncategorized resolver (classifyAll st documents)

theorem add_documents_false (resolver : Option (Document → String))
    (st : KeyedDocs) (documents : List Document) :
    add_documents false resolver st documents =
      Except.ok (add_documents_ns resolver st documents) := by
  unfold add_documents add_documents_ns classifyAll
  induction documents generalizing st with
  | nil => rfl
  | cons d ds ih =>
    simp only [List.foldlM_cons, List.foldl_cons]
    exact ih (addOneDoc st (docTypeName d.typeField) d)

/-- contains: true iff every given type name is a key of the store. -/
def containsTypes (st : KeyedDocs) (type_names : List String) : Bool :=
  type_names.all (fun n => alHasKey st n)

/-- of_type: the list of documents filed under the given type name. -/
def of_type (st : KeyedDocs) (type_name : String) : List Document :=
  alGetD st type_name []

/- ----------------------------------------------------------------------
   sampletester/inputs.py
   ---------------------------------------------------------------------- -/

/-- Modelled from the spec: sample_manifest.SCHEMA_TYPE_VALUE (the file
sampletester/sample_manifest.py is not part of the analyzed sources).  The
spec states the engine calls of_type("manifest") and that v3 manifests
carry type manifest/samples, coarsened to the part before the slash. -/
def MANIFEST_TYPE : String := "manifest"

/-- Modelled from the spec: testplan.SCHEMA_TYPE_VALUE (the file
sampletester/testplan.py is not part of the analyzed sources).  The spec
states the engine calls of_type("testplan"). -/
def TESTPLAN_TYPE : String := "testplan"

/-- untyped_yaml_resolver: classifies an untyped document by file name; a
path ending in .manifest.yaml is a manifest, any other .yaml path is a
test plan, and any non-.yaml path stays unclassified. -/
def untyped_yaml_resolver (unknown_doc : Document) : String :=
  let es := splitext unknown_doc.path
  if es.2 = ".yaml" then
    if (splitext es.1).2 = ".manifest" then MANIFEST_TYPE else TESTPLAN_TYPE
  else SCHEMA_TYPE_ABSENT

/-- One file of the working tree: its path as segments relative to the
current working directory, and the type fields of the YAML documents its
text parses into. -/
structure YFile where
  segments : List String
  docs : List TypeField
deriving DecidableEq, Repr

/-- Working tree plus the behaviour of glob.glob on the user's explicit
patterns (kept abstract; the one pattern the code itself issues is given
concrete semantics below). -/
structure Workspace where
  files : List YFile
  explicitGlob : String → List (List String)

/-- Path string of a file, joining its segments. -/
def pathString (segments : List String) : String := "/".intercalate segments

/-- os.path.isfile over the modelled tree. -/
def wsIsFile (ws : Workspace) (p : List String) : Bool :=
  ws.files.any (fun f => f.segments == p)

/-- Documents parsed from one file of the tree, as from_files builds them. -/
def fileDocs (ws : Workspace) (p : List String) : List Document :=
  match ws.files.find? (fun f => f.segments == p) with
  | none => []
  | some f => f.docs.map (fun tf => { path := pathString p, typeField := tf })

/-- from_files: keeps only the paths that are files, and adds each file's
documents in turn.  (Python iterates a set here, so the file order is
unspecified; the model fixes the given list order, and no verified claim
depends on it.) -/
def from_files (ws : Workspace) (st : KeyedDocs) (paths : List (List String)) : KeyedDocs :=
  (paths.filter (fun p => wsIsFile ws p)).foldl
    (fun st2 p => add_documents_ns (some untyped_yaml_resolver) st2 (fileDocs ws p))
    st

/-- create_indexed_docs: a fresh non-strict IndexedDocs with the
untyped_yaml_resolver, filled from the given paths. -/
def create_indexed_docs (ws : Workspace) (all_paths : List (List String)) : KeyedDocs :=
  from_files ws [] all_paths

/-- Python glob.glob for the literal pattern **/*.yaml with the default
recursive=False, as issued by get_globbed: without recursive globbing each
** component is an ordinary fnmatch pattern equivalent to *, so the glob
matches exactly the non-hidden paths of the form dir/name.yaml — one
directory level below the cwd, and no other depth. -/
def globStarStarYamlNonRec (ws : Workspace) : List (List String) :=
  (ws.files.map (fun f => f.segments)).filter
    (fun p =>
      match p with
      | [d, f] => !strStartsWith d "." && !strStartsWith f "." && strEndsWith f ".yaml"
      | _ => false)

/-- glob.glob of inputs.py: concrete semantics on the pattern the module
itself globs, the environment-supplied behaviour elsewhere. -/
def glob_glob (ws : Workspace) (pattern : String) : List (List String) :=
  if pattern = "**/*.yaml" then globStarStarYamlNonRec ws
  else ws.explicitGlob pattern

/-- get_globbed: the set of files matched by the patterns (a Python set:
duplicates collapse, keeping the first occurrence here). -/
def get_globbed (ws : Workspace) (file_patterns : List String) : List (List String) :=
  (file_patterns.foldl (fun acc p => acc ++ glob_glob ws p) []).eraseDups

/-- index_docs: indexes the explicit matches; if that index has both a
manifest-typed and a testplan-typed document it is returned unchanged,
otherwise the fallback **/*.yaml scan is indexed and only the categories
still missing are merged in (test plans first, then manifests). -/
def index_docs (ws : Workspace) (file_patterns : List String) : KeyedDocs :=
  let explicit_files := get_globbed ws file_patterns
  let indexed_explicit := create_indexed_docs ws explicit_files
  let has_manifests := containsTypes indexed_explicit [MANIFEST_TYPE]
  let has_testplans := containsTypes indexed_explicit [TESTPLAN_TYPE]
  if has_manifests && has_testplans then indexed_explicit
  else
    let implicit_files := get_globbed ws ["**/*.yaml"]
    let indexed_implicit := create_indexed_docs ws implicit_files
    let st1 :=
      if !has_testplans then
        add_documents_ns (some untyped_yaml_resolver) indexed_explicit
          (of_type indexed_implicit TESTPLAN_TYPE)
      else indexed_explicit
    if !has_manifests then
      add_documents_ns (some untyped_yaml_resolver) st1
        (of_type indexed_implicit MANIFEST_TYPE)
    else st1

/-- Follows the spec's words, for comparison with the code: the fallback
scan recursively collects every *.yaml file of the whole working tree, at
any directory depth. -/
def specRecursiveYamlScan (ws : Workspace) : List (List String) :=
  (ws.files.map (fun f => f.segments)).filter
    (fun p =>
      match p.getLast? with
      | some name => strEndsWith name ".yaml"
      | none => false)

/- ----------------------------------------------------------------------
   Generic lemmas: association lists, substrings, sorting, the monad.
   ---------------------------------------------------------------------- -/

theorem alGetD_alSet_self {α : Type} (l : List (String × α)) (k : String) (v : α) (d : α) :
    alGetD (alSet l k v) k d = v := by
  induction l with
  | nil => simp [alSet, alGetD]
  | cons kv rest ih =>
    obtain ⟨k0, v0⟩ := kv
    by_cases h : k0 = k
    · simp [alSet, alGetD, h]
    · simp [alSet, alGetD, h, ih]

theorem alGetD_alSet_ne {α : Type} (l : List (String × α)) (k k2 : String) (v : α) (d : α)
    (h : k ≠ k2) : alGetD (alSet l k v) k2 d = alGetD l k2 d := by
  induction l with
  | nil => simp [alSet, alGetD, h]
  | cons kv rest ih =>
    obtain ⟨k0, v0⟩ := kv
    by_cases h0 : k0 = k
    · subst h0
      simp [alSet, alGetD, h]
    · simp [alSet, alGetD, h0, ih]

theorem alSet_alSet_self {α : Type} (l : List (String × α)) (k : String) (v w : α) :
    alSet (alSet l k v) k w = alSet l k w := by
  induction l with
  | nil => simp [alSet]
  | cons kv rest ih =>
    obtain ⟨k0, v0⟩ := kv
    by_cases h : k0 = k
    · simp [alSet, h]
    · simp [alSet, h, ih]

theorem alHasKey_alSet_self {α : Type} (l : List (String × α)) (k : String) (v : α) :
    alHasKey (alSet l k v) k = true := by
  induction l with
  | nil => simp [alSet, alHasKey]
  | cons kv rest ih =>
    obtain ⟨k0, v0⟩ := kv
    by_cases h : k0 = k
    · simp [alSet, alHasKey, h]
    · simp [alSet, alHasKey, h, ih]

theorem alGetD_of_not_hasKey {α : Type} (l : List (String × α)) (k : String) (d : α)
    (h : alHasKey l k = false) : alGetD l k d = d := by
  induction l with
  | nil => simp [alGetD]
  | cons kv rest ih =>
    obtain ⟨k0, v0⟩ := kv
    simp [alHasKey] at h
    simp [alGetD, h.1, ih h.2]

theorem isPrefixOf_append_self : ∀ (l t : List Char), l.isPrefixOf (l ++ t) = true := by
  intro l t
  induction l with
  | nil => simp [List.isPrefixOf]
  | cons c cs ih => simp [List.isPrefixOf, ih]

theorem isPrefixOf_self (l : List Char) : l.isPrefixOf l = true := by
  induction l with
  | nil => rfl
  | cons c cs ih => simp [List.isPrefixOf, ih]

theorem containsSub_of_isPrefixOf (n h : List Char) (hp : n.isPrefixOf h = true) :
    containsSub n h = true := by
  cases h with
  | nil =>
    cases n with
    | nil => simp [containsSub]
    | cons c cs => simp [List.isPrefixOf] at hp
  | cons c cs => simp [containsSub, hp]

theorem containsSub_append_left (n a b : List Char) (hb : containsSub n b = true) :
    containsSub n (a ++ b) = true := by
  induction a with
  | nil => simpa using hb
  | cons c cs ih =>
    simp only [List.cons_append, containsSub]
    simp [ih]

theorem containsSub_quoted_joinWith (n : String) (l : List String) (hm : n ∈ l) :
    containsSub ("\"" ++ n ++ "\"").data
      (joinWith " " (l.map (fun f => "\"" ++ f ++ "\""))).data = true := by
  induction l with
  | nil => cases hm
  | cons f fs ih =>
    rcases List.mem_cons.mp hm with hf | hfs
    · subst hf
      cases fs with
      | nil =>
        simp only [List.map, joinWith]
        exact containsSub_of_isPrefixOf _ _ (isPrefixOf_self _)
      | cons g gs =>
        simp only [List.map, joinWith]
        rw [show ("\"" ++ n ++ "\"" ++ " " ++
              joinWith " " (("\"" ++ g ++ "\"") :: gs.map (fun f => "\"" ++ f ++ "\""))).data =
            ("\"" ++ n ++ "\"").data ++
              (" " ++ joinWith " "
                (("\"" ++ g ++ "\"") :: gs.map (fun f => "\"" ++ f ++ "\""))).data by
          simp [String.data_append]]
        exact containsSub_of_isPrefixOf _ _ (isPrefixOf_append_self _ _)
    · have ih2 := ih hfs
      cases fs with
      | nil => cases hfs
      | cons g gs =>
        simp only [List.map, joinWith]
        rw [show ("\"" ++ f ++ "\"" ++ " " ++
              joinWith " " (("\"" ++ g ++ "\"") :: gs.map (fun f2 => "\"" ++ f2 ++ "\""))).data =
            ("\"" ++ f ++ "\"" ++ " ").data ++
              (joinWith " "
                (("\"" ++ g ++ "\"") :: gs.map (fun f2 => "\"" ++ f2 ++ "\""))).data by
          simp [String.data_append]]
        apply containsSub_append_left
        simpa using ih2

theorem lexLe_total : ∀ a b : List Char, lexLe a b = true ∨ lexLe b a = true := by
  intro a
  induction a with
  | nil => intro b; left; simp [lexLe]
  | cons x as ih =>
    intro b
    cases b with
    | nil => right; simp [lexLe]
    | cons y bs =>
      rcases Nat.lt_trichotomy x.toNat y.toNat with h | h | h
      · left; simp [lexLe, h]
      · rcases ih bs with h2 | h2
        · left; simp [lexLe, h, h2]
        · right; simp [lexLe, h.symm, h2]
      · right; simp [lexLe, h]

theorem lexLe_trans :
    ∀ a b c : List Char, lexLe a b = true → lexLe b c = true → lexLe a c = true := by
  intro a
  induction a with
  | nil => intro b c _ _; simp [lexLe]
  | cons x as ih =>
    intro b c hab hbc
    cases b with
    | nil => simp [lexLe] at hab
    | cons y bs =>
      cases c with
      | nil => simp [lexLe] at hbc
      | cons z cs =>
        simp only [lexLe] at hab hbc ⊢
        by_cases hxy : x.toNat < y.toNat
        · by_cases hyz : y.toNat < z.toNat
          · simp [show x.toNat < z.toNat by omega]
          · simp [hyz] at hbc
            by_cases hyz2 : y.toNat = z.toNat
            · simp [show x.toNat < z.toNat by omega]
            · simp [hyz2] at hbc
        · simp [hxy] at hab
          by_cases hxy2 : x.toNat = y.toNat
          · simp [hxy2] at hab
            by_cases hyz : y.toNat < z.toNat
            · simp [show x.toNat < z.toNat by omega]
            · simp [hyz] at hbc
              by_cases hyz2 : y.toNat = z.toNat
              · simp [hyz2] at hbc
                have hxz : ¬ x.toNat < z.toNat := by omega
                simp [hxz, show x.toNat = z.toNat by omega]
                exact ih bs cs hab hbc
              · simp [hyz2] at hbc
          · simp [hxy2] at hab

theorem insertStr_perm (x : String) (l : List String) : (insertStr x l).Perm (x :: l) := by
  induction l with
  | nil => simp [insertStr]
  | cons y ys ih =>
    simp only [insertStr]
    by_cases h : strLe x y
    · simp [h]
    · simp only [h, if_false]
      exact (List.Perm.cons y ih).trans (List.Perm.swap x y ys)

theorem sortStrs_perm (l : List String) : (sortStrs l).Perm l := by
  induction l with
  | nil => simp [sortStrs]
  | cons x xs ih =>
    simp only [sortStrs]
    exact ((insertStr_perm x (sortStrs xs)).trans (List.Perm.cons x ih))

theorem insertStr_pairwise (x : String) (l : List String)
    (h : List.Pairwise (fun a b => strLe a b = true) l) :
    List.Pairwise (fun a b => strLe a b = true) (insertStr x l) := by
  induction l with
  | nil => simp [insertStr]
  | cons y ys ih =>
    simp only [insertStr]
    rcases List.pairwise_cons.mp h with ⟨hy, hys⟩
    by_cases hxy : strLe x y
    · simp only [hxy, if_true]
      refine List.pairwise_cons.mpr ⟨?_, h⟩
      intro z hz
      rcases List.mem_cons.mp hz with hz | hz
      · subst hz; exact hxy
      · exact lexLe_trans _ _ _ hxy (hy z hz)
    · simp only [hxy, if_false]
      refine List.pairwise_cons.mpr ⟨?_, ih hys⟩
      intro z hz
      have hz2 : z ∈ x :: ys := (insertStr_perm x ys).mem_iff.mp hz
      rcases List.mem_cons.mp hz2 with hz3 | hz3
      · rcases lexLe_total x.data y.data with ht | ht
        · exact absurd (show strLe x y = true from ht) hxy
        · rw [hz3]
          exact ht
      · exact hy z hz3

theorem sortStrs_pairwise (l : List String) :
    List.Pairwise (fun a b => strLe a b = true) (sortStrs l) := by
  induction l with
  | nil => simp [sortStrs]
  | cons x xs ih => exact insertStr_pairwise x (sortStrs xs) ih

theorem runG_bind {α β : Type} (m : GenM α) (k : α → GenM β) (t : Trace) :
    runG (m >>= k) t =
      match runG m t with
      | (Except.ok a, t2) => runG (k a) t2
      | (Except.error e, t2) => (Except.error e, t2) := by
  simp only [runG, ExceptT.run_bind, StateT.run_bind]
  rcases h : (m.run).run t with ⟨r, t2⟩
  cases r with
  | ok a => simp [ExceptT.bindCont, runG]
  | error e => simp [ExceptT.bindCont]

theorem runG_pure {α : Type} (a : α) (t : Trace) : runG (pure a : GenM α) t = (Except.ok a, t) := rfl

theorem runG_throw {α : Type} (e : GErr) (t : Trace) :
    runG (throw e : GenM α) t = (Except.error e, t) := rfl

/- ----------------------------------------------------------------------
   Resolution of unclassified documents (parser.py): C9, C10.
   ---------------------------------------------------------------------- -/

theorem resolveFold_spec (r : Document → String) :
    ∀ (l : List Document) (st : KeyedDocs) (acc : List Document),
      l.foldl (resolveStep r) (st, acc) =
        ((l.filter (fun u => !skipsDoc r u)).foldl (fun s u => addOneDoc s (r u) u) st,
         acc ++ l.filter (skipsDoc r)) := by
  intro l
  induction l with
  | nil => intro st acc; simp
  | cons u l2 ih =>
    intro st acc
    by_cases h : skipsDoc r u
    · simp only [List.foldl_cons, resolveStep, h, if_true, List.filter_cons]
      rw [ih]
      simp [h]
    · simp only [List.foldl_cons, resolveStep, h, if_false, List.filter_cons]
      rw [ih]
      simp [h]

theorem resolve_once (r : Document → String) (st : KeyedDocs) :
    resolve_uncategorized (some r) st =
      alSet
        (((alGetD st SCHEMA_TYPE_ABSENT []).filter (fun u => !skipsDoc r u)).foldl
          (fun s u => addOneDoc s (r u) u) st)
        SCHEMA_TYPE_ABSENT
        ((alGetD st SCHEMA_TYPE_ABSENT []).filter (skipsDoc r)) := by
  unfold resolve_uncategorized
  simp only
  rw [resolveFold_spec]
  simp

/-- C9: running resolve_uncategorized twice with the same (pure) resolver
yields exactly the same classification as running it once; in particular,
re-running it on a store it has already processed changes nothing. -/
theorem resolve_uncategorized_idempotent (r : Document → String) (st : KeyedDocs) :
    resolve_uncategorized (some r) (resolve_uncategorized (some r) st) =
      resolve_uncategorized (some r) st := by
  rw [resolve_once r st]
  set u := alGetD st SCHEMA_TYPE_ABSENT [] with hu
  set kept := u.filter (skipsDoc r) with hkept
  set st1 := (u.filter (fun x => !skipsDoc r x)).foldl (fun s u2 => addOneDoc s (r u2) u2) st
    with hst1
  rw [resolve_once r (alSet st1 SCHEMA_TYPE_ABSENT kept)]
  rw [alGetD_alSet_self]
  have hall : ∀ x ∈ kept, skipsDoc r x = true := by
    intro x hx
    exact List.of_mem_filter hx
  have hk1 : kept.filter (fun x => !skipsDoc r x) = [] := by
    apply List.filter_eq_nil_iff.mpr
    intro x hx
    simp [hall x hx]
  have hk2 : kept.filter (skipsDoc r) = kept := by
    apply List.filter_eq_self.mpr
    exact hall
  rw [hk1, hk2]
  simp only [List.foldl_nil]
  exact alSet_alSet_self st1 SCHEMA_TYPE_ABSENT kept kept

/-- C10: after any non-strict add_documents call on a store with a
resolver, the SCHEMA_TYPE_ABSENT key is present in the mapping — even when
the call added no documents and nothing is unclassified — so contains
reports true for the unclassified type while of_type can still be empty. -/
theorem absent_key_always_present (r : Document → String) (st : KeyedDocs)
    (documents : List Document) (st2 : KeyedDocs)
    (h : add_documents false (some r) st documents = Except.ok st2) :
    containsTypes st2 [SCHEMA_TYPE_ABSENT] = true ∧
    (documents = [] → of_type st SCHEMA_TYPE_ABSENT = [] →
      of_type st2 SCHEMA_TYPE_ABSENT = []) := by
  rw [add_documents_false] at h
  have h2 : st2 = add_documents_ns (some r) st documents := by
    injection h with h3
    exact h3.symm
  subst h2
  constructor
  · unfold add_documents_ns resolve_uncategorized
    simp only [containsTypes, List.all_cons, List.all_nil, Bool.and_true]
    exact alHasKey_alSet_self _ SCHEMA_TYPE_ABSENT _
  · intro hdocs habs
    subst hdocs
    unfold add_documents_ns classifyAll resolve_uncategorized
    simp only [List.foldl_nil]
    unfold of_type at habs ⊢
    rw [habs]
    simp only [List.foldl_nil]
    exact alGetD_alSet_self st SCHEMA_TYPE_ABSENT [] []

/-- Closed instance of C10: on the empty store with a trivial resolver and
no documents, the unclassified key is present yet holds no documents. -/
theorem absent_key_always_present_witness :
    containsTypes [(SCHEMA_TYPE_ABSENT, [])] [SCHEMA_TYPE_ABSENT] = true ∧
    of_type ([(SCHEMA_TYPE_ABSENT, [])] : KeyedDocs) SCHEMA_TYPE_ABSENT = [] := by
  have h := absent_key_always_present (fun _ => "x") [] [] [(SCHEMA_TYPE_ABSENT, [])] rfl
  exact ⟨h.1, h.2 rfl rfl⟩

/- ----------------------------------------------------------------------
   Input Resolver (inputs.py): C3, C4.
   ---------------------------------------------------------------------- -/

theorem alHasKey_of_of_type_ne (st : KeyedDocs) (k : String)
    (h : of_type st k ≠ []) : alHasKey st k = true := by
  by_contra hk
  have hk2 : alHasKey st k = false := by
    cases h2 : alHasKey st k
    · rfl
    · exact absurd h2 hk
  exact h (alGetD_of_not_hasKey st k [] hk2)

/-- C3: when the index built from the explicit patterns already holds at
least one manifest-typed and one testplan-typed document, index_docs
returns that index unchanged — no implicitly discovered document is ever
added, whatever else lies in the working tree. -/
theorem explicit_index_trusted (ws : Workspace) (file_patterns : List String)
    (hm : of_type (create_indexed_docs ws (get_globbed ws file_patterns)) MANIFEST_TYPE ≠ [])
    (ht : of_type (create_indexed_docs ws (get_globbed ws file_patterns)) TESTPLAN_TYPE ≠ []) :
    index_docs ws file_patterns = create_indexed_docs ws (get_globbed ws file_patterns) := by
  have h1 := alHasKey_of_of_type_ne _ _ hm
  have h2 := alHasKey_of_of_type_ne _ _ ht
  unfold index_docs
  simp [containsTypes, h1, h2]

/-- Working tree of the C3 witness: an explicitly matched manifest and test
plan, plus an unrelated YAML file one directory down that the fallback scan
would pick up. -/
def wsC3 : Workspace :=
  { files := [⟨["x.manifest.yaml"], [TypeField.strVal "manifest/samples"]⟩,
              ⟨["t.yaml"], [TypeField.strVal "testplan/v1"]⟩,
              ⟨["sub", "stray.yaml"], [TypeField.absent]⟩],
    explicitGlob := fun p => if p = "pat" then [["x.manifest.yaml"], ["t.yaml"]] else [] }

/-- Closed instance of C3 on wsC3: the explicit index is returned as is. -/
theorem explicit_index_trusted_witness :
    index_docs wsC3 ["pat"] = create_indexed_docs wsC3 (get_globbed wsC3 ["pat"]) :=
  explicit_index_trusted wsC3 ["pat"] (by decide) (by decide)

/-- Working tree of the C4 analysis: its only YAML file, an (untyped) test
plan, sits directly in the working directory. -/
def wsC4 : Workspace :=
  { files := [⟨["plan.yaml"], [TypeField.absent]⟩],
    explicitGlob := fun _ => [] }

/-- C4 evaluation: on a tree whose only test plan is a top-level
plan.yaml and with no explicit patterns, the fallback glob of index_docs
(issued without recursive=True) matches nothing, so the resolver finds no
test plan — while the whole-tree recursive scan the spec describes would
have found the file, and the filename resolver would classify it as a test
plan.  The same happens for files nested two or more directories deep. -/
theorem fallback_scan_misses_toplevel_yaml :
    containsTypes (index_docs wsC4 []) [TESTPLAN_TYPE] = false ∧
    of_type (index_docs wsC4 []) TESTPLAN_TYPE = [] ∧
    globStarStarYamlNonRec wsC4 = [] ∧
    specRecursiveYamlScan wsC4 = [["plan.yaml"]] ∧
    untyped_yaml_resolver ⟨"plan.yaml", TypeField.absent⟩ = TESTPLAN_TYPE := by
  refine ⟨by decide, by decide, by decide, by decide, by decide⟩

/- ----------------------------------------------------------------------
   Argument splitter (gen_manifest): C6.
   ---------------------------------------------------------------------- -/

theorem parseFold_spec :
    ∀ (params : List String) (acc : List String × List (String × String)),
      params.foldl parseStep acc =
        (acc.1 ++ params.filter (fun c => !strStartsWith c "--"),
         acc.2 ++ (params.filter (fun c => strStartsWith c "--")).map
           (fun c => tagOfBody (c.data.drop 2))) := by
  intro params
  induction params with
  | nil => intro acc; simp
  | cons c cs ih =>
    intro acc
    by_cases h : strStartsWith c "--"
    · simp only [List.foldl_cons, parseStep, h, if_true, List.filter_cons]
      rw [ih]
      simp [h]
    · simp only [List.foldl_cons, parseStep, h, if_false, List.filter_cons]
      rw [ih]
      simp [h]

/-- C6: the splitter turns every double-dash token, in original order, into
a tag pair split at the first equals sign (empty value when there is none),
treats every other token as a file argument, and returns the files as a
lexicographically sorted permutation of their original multiset. -/
theorem argument_splitter_spec (params : List String) :
    (parse_files_and_tags params).2 =
      (params.filter (fun c => strStartsWith c "--")).map
        (fun c => tagOfBody (c.data.drop 2)) ∧
    ((parse_files_and_tags params).1).Perm
      (params.filter (fun c => !strStartsWith c "--")) ∧
    List.Pairwise (fun a b => strLe a b = true) (parse_files_and_tags params).1 := by
  unfold parse_files_and_tags
  rw [parseFold_spec]
  simp only [List.nil_append]
  refine ⟨?_, ?_, ?_⟩
  · trivial
  · exact sortStrs_perm _
  · exact sortStrs_pairwise _

/- ----------------------------------------------------------------------
   Region-tag extraction (gen_manifest): C1.
   ---------------------------------------------------------------------- -/

theorem runG_logRead (p : String) (t : Trace) :
    runG (logRead p) t = (Except.ok (), { t with readFiles := t.readFiles ++ [p] }) := rfl

theorem runG_logGlob (p : String) (t : Trace) :
    runG (logGlob p) t = (Except.ok (), { t with globbed := t.globbed ++ [p] }) := rfl

theorem runG_writeStderr (s : String) (t : Trace) :
    runG (writeStderr s) t = (Except.ok (), { t with stderrOut := t.stderrOut ++ [s] }) := rfl

theorem get_region_tag_run_not_file (fs : GFS) (p : String) (t : Trace)
    (hf : fs.isFile p = false) :
    runG (get_region_tag fs p) t =
      (Except.error (GErr.NotRegularFileError ("not a regular file: \"" ++ p ++ "\"")), t) := by
  unfold get_region_tag
  simp only [hf, Bool.false_eq_true, if_false]
  rfl

theorem get_region_tag_run_file (fs : GFS) (p : String) (t : Trace)
    (hf : fs.isFile p = true) :
    runG (get_region_tag fs p) t =
      ((match regionTagsOf (fs.fileText p) with
        | [] => Except.error (GErr.RegionTagError ("Found no region tags in " ++ p ++ "."))
        | [t1] => Except.ok t1
        | _ :: _ :: _ =>
          Except.error (GErr.RegionTagError ("Found too many region tags in " ++ p ++ "."))),
       { t with readFiles := t.readFiles ++ [p] }) := by
  unfold get_region_tag
  simp only [hf, if_true]
  rw [runG_bind]
  rw [runG_logRead]
  simp only
  cases hQ : regionTagsOf (fs.fileText p) with
  | nil => rfl
  | cons a l =>
    cases l with
    | nil => rfl
    | cons b l2 => rfl

/-- C1: extraction fails with NotRegularFileError on anything that is not
an existing regular file; on a regular file it returns the unique
qualifying region-tag id (a start-marker id without the substring core
that also occurs as an end-marker id) when exactly one exists, and fails
with RegionTagError when there are zero or several. -/
theorem region_tag_extraction_cases (fs : GFS) (p : String) (t0 : Trace) :
    (fs.isFile p = false →
      runG (get_region_tag fs p) t0 =
        (Except.error (GErr.NotRegularFileError ("not a regular file: \"" ++ p ++ "\"")), t0)) ∧
    (fs.isFile p = true →
      ((∀ t1, regionTagsOf (fs.fileText p) = [t1] →
          runG (get_region_tag fs p) t0 =
            (Except.ok t1, { t0 with readFiles := t0.readFiles ++ [p] })) ∧
       ((regionTagsOf (fs.fileText p)).length ≠ 1 →
          ∃ m, runG (get_region_tag fs p) t0 =
            (Except.error (GErr.RegionTagError m),
             { t0 with readFiles := t0.readFiles ++ [p] })))) := by
  constructor
  · intro hf
    exact get_region_tag_run_not_file fs p t0 hf
  · intro hf
    constructor
    · intro t1 hQ
      rw [get_region_tag_run_file fs p t0 hf, hQ]
    · intro hlen
      rw [get_region_tag_run_file fs p t0 hf]
      cases hQ : regionTagsOf (fs.fileText p) with
      | nil => exact ⟨_, rfl⟩
      | cons a l =>
        cases l with
        | nil => rw [hQ] at hlen; simp at hlen
        | cons b l2 => exact ⟨_, rfl⟩

/-- Sample filesystem of the C1 witness: one regular file containing
exactly one region-tag pair. -/
def fsC1 : GFS :=
  { globResults := fun _ => [],
    isFile := fun q => q == "s.py",
    fileText := fun _ => "# [START my_tag]\nprint(1)\n# [END my_tag]\n",
    cwd := "/c" }

/-- Closed instance of C1: extraction on fsC1's single file returns its
unique region tag. -/
theorem region_tag_extraction_cases_witness :
    fsC1.isFile "s.py" = true ∧
    regionTagsOf (fsC1.fileText "s.py") = ["my_tag"] ∧
    runG (get_region_tag fsC1 "s.py") Trace.empty =
      (Except.ok "my_tag", { globbed := [], readFiles := ["s.py"], stderrOut := [] }) := by
  refine ⟨by decide, by decide, ?_⟩
  have h := ((region_tag_extraction_cases fsC1 "s.py" Trace.empty).2 (by decide)).1
    "my_tag" (by decide)
  exact h

/- ----------------------------------------------------------------------
   Forbidden tag names (gen_manifest): C2.
   ---------------------------------------------------------------------- -/

theorem runG_forbid_names_err (tags : List (String × String)) (forbidden : List String)
    (t : Trace) (h : (offendingNames tags forbidden).isEmpty = false) :
    runG (forbid_names tags forbidden) t =
      (Except.error (GErr.TagNameError (forbidNamesMessage (offendingNames tags forbidden))), t) := by
  unfold forbid_names
  simp only [h, Bool.false_eq_true, if_false]
  rfl

theorem forbidNamesMessage_lists_name (found : List String) (n : String) (hm : n ∈ found) :
    strContains (forbidNamesMessage found) ("\"" ++ n ++ "\"") = true := by
  unfold strContains forbidNamesMessage
  rw [show ("the following tag names are reserved because they are auto-generated, " ++
        "given the other options specified: " ++
        joinWith " " (found.map (fun f => "\"" ++ f ++ "\""))).data =
      ("the following tag names are reserved because they are auto-generated, " ++
        "given the other options specified: ").data ++
        (joinWith " " (found.map (fun f => "\"" ++ f ++ "\""))).data by
    simp [String.data_append]]
  exact containsSub_append_left _ _ _ (containsSub_quoted_joinWith n found hm)

/-- C2: whenever some tag is literally named sample or path, all three
emitters fail from the empty trace with the TagNameError listing every
offending name, before expanding any glob, reading any file or writing
anything — the final trace is still empty. -/
theorem forbidden_tag_names_fail_fast (fs : GFS) (tags : List (String × String))
    (sample_globs : List String) (flat : Bool)
    (h : ∃ nv ∈ tags, nv.1 = "sample" ∨ nv.1 = "path") :
    (runG (create_factored_manifest_v3 fs tags sample_globs) Trace.empty =
      (Except.error (GErr.TagNameError
        (forbidNamesMessage (offendingNames tags ["sample", "path"]))), Trace.empty)) ∧
    (runG (create_flat_manifest_v3 fs tags sample_globs) Trace.empty =
      (Except.error (GErr.TagNameError
        (forbidNamesMessage (offendingNames tags ["sample", "path"]))), Trace.empty)) ∧
    (runG (emit_manifest_v2 fs tags sample_globs flat) Trace.empty =
      (Except.error (GErr.TagNameError
        (forbidNamesMessage (offendingNames tags ["sample", "path"]))), Trace.empty)) ∧
    (∀ n ∈ offendingNames tags ["sample", "path"],
      strContains (forbidNamesMessage (offendingNames tags ["sample", "path"]))
        ("\"" ++ n ++ "\"") = true) := by
  obtain ⟨nv, hmem, hor⟩ := h
  have hin : nv.1 ∈ offendingNames tags ["sample", "path"] := by
    apply List.mem_filter.mpr
    refine ⟨List.mem_map_of_mem _ hmem, ?_⟩
    rcases hor with h1 | h1 <;> simp [h1]
  have hne : (offendingNames tags ["sample", "path"]).isEmpty = false := by
    cases he : (offendingNames tags ["sample", "path"]).isEmpty
    · rfl
    · exact absurd (List.isEmpty_iff.mp he ▸ hin) (List.not_mem_nil nv.1)
  refine ⟨?_, ?_, ?_, ?_⟩
  · unfold create_factored_manifest_v3
    rw [runG_bind, runG_forbid_names_err tags ["sample", "path"] Trace.empty hne]
  · unfold create_flat_manifest_v3
    rw [runG_bind, runG_forbid_names_err tags ["sample", "path"] Trace.empty hne]
  · unfold emit_manifest_v2
    rw [runG_bind, runG_forbid_names_err tags ["sample", "path"] Trace.empty hne]
  · intro n hn
    exact forbidNamesMessage_lists_name _ n hn

/-- Closed instance of C2: a tag named sample makes the factored emitter
fail with the listing TagNameError and an empty effect trace. -/
theorem forbidden_tag_names_fail_fast_witness :
    runG (create_factored_manifest_v3 fsC1 [("sample", "x")] ["g"]) Trace.empty =
      (Except.error (GErr.TagNameError (forbidNamesMessage ["sample"])), Trace.empty) ∧
    strContains (forbidNamesMessage ["sample"]) "\"sample\"" = true := by
  have h := forbidden_tag_names_fail_fast fsC1 [("sample", "x")] ["g"] false
    ⟨("sample", "x"), by simp⟩
  refine ⟨h.1, ?_⟩
  have h4 := h.2.2.2 "sample" (by decide)
  exact h4

/- ----------------------------------------------------------------------
   CLI boundary (gen_manifest main): C8.
   ---------------------------------------------------------------------- -/

/-- C8: when the selected emitter raises a GenManifestError the CLI prints
the message and exits with code 2 without writing to the output file or to
stdout; when it succeeds the CLI exits with code 0 after writing the
complete serialized manifest to the output file (or to stdout for -). -/
theorem cli_error_and_success (fs : GFS) (sv output : String) (flat : Bool)
    (args : List String) :
    (∀ e t2,
      runG (registered_emitter sv fs (parse_files_and_tags args).2
          (parse_files_and_tags args).1 flat) Trace.empty = (Except.error e, t2) →
      mainModel fs sv output flat args =
        { exitCode := 2, printed := ["ERROR: " ++ errText e], fileWritten := none,
          stdoutText := none, trace := t2 }) ∧
    (∀ doc t2,
      runG (registered_emitter sv fs (parse_files_and_tags args).2
          (parse_files_and_tags args).1 flat) Trace.empty = (Except.ok doc, t2) →
      (output ≠ "-" → mainModel fs sv output flat args =
        { exitCode := 0, printed := [], fileWritten := some (output, doc),
          stdoutText := none, trace := t2 }) ∧
      (output = "-" → mainModel fs sv output flat args =
        { exitCode := 0, printed := [], fileWritten := none,
          stdoutText := some doc, trace := t2 })) := by
  constructor
  · intro e t2 hrun
    unfold mainModel
    dsimp only
    rw [hrun]
  · intro doc t2 hrun
    constructor
    · intro hout
      unfold mainModel
      dsimp only
      rw [hrun]
      simp [hout]
    · intro hout
      unfold mainModel
      dsimp only
      rw [hrun]
      simp [hout]

/-- Closed instance of C8: a forbidden tag name makes the CLI print the
error and exit with code 2, writing nothing. -/
theorem cli_error_and_success_witness :
    mainModel fsC1 "3" "-" false ["--sample=x"] =
      { exitCode := 2, printed := ["ERROR: " ++ forbidNamesMessage ["sample"]],
        fileWritten := none, stdoutText := none, trace := Trace.empty } := by
  have h := (cli_error_and_success fsC1 "3" "-" false ["--sample=x"]).1
    (GErr.TagNameError (forbidNamesMessage ["sample"])) Trace.empty rfl
  exact h

/- ----------------------------------------------------------------------
   Flat v3 loop characterization (gen_manifest): towards C5 and C7.
   ---------------------------------------------------------------------- -/

theorem runG_glob_non_yaml (fs : GFS) (s : String) (t : Trace) :
    runG (glob_non_yaml fs s) t =
      (Except.ok ((fs.globResults s).filter nonYamlExt),
       { t with globbed := t.globbed ++ [s] }) := by
  unfold glob_non_yaml
  rw [runG_bind, runG_logGlob]
  rfl

theorem get_region_tag_run_ok (fs : GFS) (p : String) (t : Trace) (tg : String)
    (h : pureRegionTag fs p = some tg) :
    runG (get_region_tag fs p) t =
      (Except.ok tg, { t with readFiles := t.readFiles ++ [p] }) := by
  unfold pureRegionTag at h
  cases hf : fs.isFile p with
  | false => rw [hf] at h; simp at h
  | true =>
    rw [hf] at h
    simp only [if_true] at h
    rw [get_region_tag_run_file fs p t hf]
    cases hQ : regionTagsOf (fs.fileText p) with
    | nil => rw [hQ] at h; simp at h
    | cons a l =>
      cases l with
      | nil =>
        rw [hQ] at h
        simp at h
        rw [h]
      | cons b l2 => rw [hQ] at h; simp at h

theorem get_region_tag_run_err (fs : GFS) (p : String) (t : Trace)
    (h : pureRegionTag fs p = none) :
    ∃ e t2, runG (get_region_tag fs p) t = (Except.error e, t2) ∧
      t2.stderrOut = t.stderrOut := by
  unfold pureRegionTag at h
  cases hf : fs.isFile p with
  | false =>
    exact ⟨_, t, get_region_tag_run_not_file fs p t hf, rfl⟩
  | true =>
    rw [hf] at h
    simp only [if_true] at h
    rw [show runG (get_region_tag fs p) t = _ from get_region_tag_run_file fs p t hf]
    cases hQ : regionTagsOf (fs.fileText p) with
    | nil => exact ⟨_, _, rfl, rfl⟩
    | cons a l =>
      cases l with
      | nil => rw [hQ] at h; simp at h
      | cons b l2 => exact ⟨_, _, rfl, rfl⟩

theorem flatTagStep_basepath (acc : Option String × List (String × String) × Bool × Bool)
    (nv : String × String) (h : (nv.1 == BASEPATH_KEY) = true) :
    flatTagStep acc nv = (some nv.2, acc.2.1, acc.2.2.1, acc.2.2.2) := by
  simp [flatTagStep, h]

theorem flatTagStep_other (acc : Option String × List (String × String) × Bool × Bool)
    (nv : String × String) (h : (nv.1 == BASEPATH_KEY) = false) :
    flatTagStep acc nv =
      (acc.1, alSet acc.2.1 nv.1 nv.2,
       acc.2.2.1 || nv.1 == BIN_KEY, acc.2.2.2 || nv.1 == INVOCATION_KEY) := by
  simp [flatTagStep, h]

theorem flatTagFold_split :
    ∀ (tags : List (String × String)) (bp : Option String)
      (ec : List (String × String)) (b1 b2 : Bool),
      tags.foldl flatTagStep (bp, ec, b1, b2) =
        ((tags.foldl flatTagStep (bp, ec, false, false)).1,
         (tags.foldl flatTagStep (bp, ec, false, false)).2.1,
         b1 || (tags.foldl flatTagStep (bp, ec, false, false)).2.2.1,
         b2 || (tags.foldl flatTagStep (bp, ec, false, false)).2.2.2) := by
  intro tags
  induction tags with
  | nil => intro bp ec b1 b2; simp
  | cons nv rest ih =>
    intro bp ec b1 b2
    simp only [List.foldl_cons]
    cases hb : (nv.1 == BASEPATH_KEY) with
    | true =>
      rw [flatTagStep_basepath _ nv hb, flatTagStep_basepath _ nv hb]
      exact ih (some nv.2) ec b1 b2
    | false =>
      rw [flatTagStep_other _ nv hb, flatTagStep_other _ nv hb]
      simp only
      rw [ih bp (alSet ec nv.1 nv.2) (b1 || (nv.1 == BIN_KEY)) (b2 || (nv.1 == INVOCATION_KEY)),
          ih bp (alSet ec nv.1 nv.2) (false || (nv.1 == BIN_KEY)) (false || (nv.1 == INVOCATION_KEY))]
      simp [Bool.or_assoc]

theorem flatTagFold_flags_any :
    ∀ (tags : List (String × String)) (bp : Option String) (ec : List (String × String)),
      (tags.foldl flatTagStep (bp, ec, false, false)).2.2.1 =
        tags.any (fun nv => nv.1 == BIN_KEY) ∧
      (tags.foldl flatTagStep (bp, ec, false, false)).2.2.2 =
        tags.any (fun nv => nv.1 == INVOCATION_KEY) := by
  intro tags
  induction tags with
  | nil => intro bp ec; simp
  | cons nv rest ih =>
    intro bp ec
    simp only [List.foldl_cons, List.any_cons]
    cases hb : (nv.1 == BASEPATH_KEY) with
    | true =>
      have hbeq : nv.1 = BASEPATH_KEY := by simpa using hb
      have h1 : (nv.1 == BIN_KEY) = false := by rw [hbeq]; decide
      have h2 : (nv.1 == INVOCATION_KEY) = false := by rw [hbeq]; decide
      rw [flatTagStep_basepath _ nv hb]
      simp only [h1, h2, Bool.false_or]
      exact ih (some nv.2) ec
    | false =>
      rw [flatTagStep_other _ nv hb]
      simp only [Bool.false_or]
      rw [flatTagFold_split rest bp (alSet ec nv.1 nv.2) (nv.1 == BIN_KEY)
        (nv.1 == INVOCATION_KEY)]
      rcases ih bp (alSet ec nv.1 nv.2) with ⟨ih1, ih2⟩
      constructor
      · simp only
        rw [ih1]
      · simp only
        rw [ih2]

theorem alSet_key_mem {α : Type} (l : List (String × α)) (k : String) (v : α) :
    ∀ kv ∈ alSet l k v, kv.1 = k ∨ ∃ kv2 ∈ l, kv.1 = kv2.1 := by
  induction l with
  | nil =>
    intro kv hkv
    simp [alSet] at hkv
    left
    rw [hkv]
  | cons kv0 rest ih =>
    intro kv hkv
    obtain ⟨k0, v0⟩ := kv0
    by_cases h : k0 = k
    · simp only [alSet, h, if_true] at hkv
      rcases List.mem_cons.mp hkv with h2 | h2
      · left
        rw [h2]
        try exact h
      · right; exact ⟨kv, List.mem_cons_of_mem _ h2, rfl⟩
    · simp only [alSet, h, if_false] at hkv
      rcases List.mem_cons.mp hkv with h2 | h2
      · right; exact ⟨(k0, v0), List.mem_cons_self _ _, by rw [h2]⟩
      · rcases ih kv h2 with h3 | ⟨kv2, hkv2, h3⟩
        · left; exact h3
        · right; exact ⟨kv2, List.mem_cons_of_mem _ hkv2, h3⟩

theorem flatTagFold_ec_keys :
    ∀ (tags : List (String × String)) (bp : Option String)
      (ec : List (String × String)) (b1 b2 : Bool),
      ∀ kv ∈ (tags.foldl flatTagStep (bp, ec, b1, b2)).2.1,
        (∃ kv2 ∈ ec, kv.1 = kv2.1) ∨ (∃ nv ∈ tags, kv.1 = nv.1) := by
  intro tags
  induction tags with
  | nil =>
    intro bp ec b1 b2 kv hkv
    simp only [List.foldl_nil] at hkv
    exact Or.inl ⟨kv, hkv, rfl⟩
  | cons nv rest ih =>
    intro bp ec b1 b2 kv hkv
    simp only [List.foldl_cons] at hkv
    cases hb : (nv.1 == BASEPATH_KEY) with
    | true =>
      rw [flatTagStep_basepath _ nv hb] at hkv
      rcases ih (some nv.2) ec b1 b2 kv hkv with h | ⟨nv2, hnv2, h⟩
      · exact Or.inl h
      · exact Or.inr ⟨nv2, List.mem_cons_of_mem _ hnv2, h⟩
    | false =>
      rw [flatTagStep_other _ nv hb] at hkv
      rcases ih bp (alSet ec nv.1 nv.2) (b1 || (nv.1 == BIN_KEY))
          (b2 || (nv.1 == INVOCATION_KEY)) kv hkv with ⟨kv2, hkv2, h⟩ | ⟨nv2, hnv2, h⟩
      · rcases alSet_key_mem ec nv.1 nv.2 kv2 hkv2 with h2 | ⟨kv3, hkv3, h2⟩
        · exact Or.inr ⟨nv, List.mem_cons_self _ _, by rw [h, h2]⟩
        · exact Or.inl ⟨kv3, hkv3, by rw [h, h2]⟩
      · exact Or.inr ⟨nv2, List.mem_cons_of_mem _ hnv2, h⟩

theorem alGetD_foldl_alSet_of_ne {α : Type} :
    ∀ (pairs : List (String × α)) (e0 : List (String × α)) (k : String) (d : α),
      (∀ kv ∈ pairs, kv.1 ≠ k) →
      alGetD (pairs.foldl (fun e kv => alSet e kv.1 kv.2) e0) k d = alGetD e0 k d := by
  intro pairs
  induction pairs with
  | nil => intro e0 k d _; rfl
  | cons kv0 rest ih =>
    intro e0 k d h
    simp only [List.foldl_cons]
    rw [ih (alSet e0 kv0.1 kv0.2) k d (fun kv hkv => h kv (List.mem_cons_of_mem _ hkv))]
    exact alGetD_alSet_ne e0 kv0.1 k kv0.2 d (h kv0 (List.mem_cons_self _ _))

theorem entryFor_path (tags : List (String × String)) (m tg : String)
    (hNo : ∀ nv ∈ tags, nv.1 ≠ "path") :
    alGetD (entryFor tags m tg) "path" "" = osJoin (flatBasepath tags) m := by
  unfold entryFor flatBasepath flatTagFold
  rw [alGetD_foldl_alSet_of_ne]
  · rfl
  · intro kv hkv
    rcases flatTagFold_ec_keys tags none [] false false kv hkv with ⟨kv2, hkv2, _⟩ | ⟨nv, hnv, h⟩
    · cases hkv2
    · rw [h]; exact hNo nv hnv

theorem entryFor_sample (tags : List (String × String)) (m tg : String)
    (hNo : ∀ nv ∈ tags, nv.1 ≠ "sample") :
    alGetD (entryFor tags m tg) "sample" "" = tg := by
  unfold entryFor flatTagFold
  rw [alGetD_foldl_alSet_of_ne]
  · rfl
  · intro kv hkv
    rcases flatTagFold_ec_keys tags none [] false false kv hkv with ⟨kv2, hkv2, _⟩ | ⟨nv, hnv, h⟩
    · cases hkv2
    · rw [h]; exact hNo nv hnv

theorem flatTagFold_eval (tags : List (String × String)) (b1 b2 : Bool) :
    flatTagFold tags b1 b2 =
      ((flatTagFold tags false false).1,
       (flatTagFold tags false false).2.1,
       b1 || tags.any (fun nv => nv.1 == BIN_KEY),
       b2 || tags.any (fun nv => nv.1 == INVOCATION_KEY)) := by
  unfold flatTagFold
  rw [flatTagFold_split tags none [] b1 b2]
  rcases flatTagFold_flags_any tags none [] with ⟨h1, h2⟩
  rw [h1, h2]

theorem or_and_absorb (a x e : Bool) : ((a || x) || (e && x)) = (a || x) := by
  cases a <;> cases x <;> cases e <;> rfl

theorem or_and_isEmpty (a x : Bool) (l1 l2 : List String) :
    ((a || (!l1.isEmpty && x)) || (!l2.isEmpty && x)) = (a || (!(l1 ++ l2).isEmpty && x)) := by
  cases a <;> cases x <;> cases l1 <;> cases l2 <;> rfl

theorem runG_flatSampleStep_ok (fs : GFS) (tags : List (String × String))
    (acc2 : List (List (String × String)) × Bool × Bool) (sample : String) (t : Trace)
    (h : (pureRegionTag fs (osJoin fs.cwd sample)).isSome = true) :
    runG (flatSampleStep fs tags acc2 sample) t =
      (Except.ok (acc2.1 ++ [entryFor tags sample (extOf fs sample)],
        acc2.2.1 || tags.any (fun nv => nv.1 == BIN_KEY),
        acc2.2.2 || tags.any (fun nv => nv.1 == INVOCATION_KEY)),
       { t with readFiles := t.readFiles ++ [osJoin fs.cwd sample] }) := by
  have hsome : pureRegionTag fs (osJoin fs.cwd sample) = some (extOf fs sample) := by
    unfold extOf
    cases ho : pureRegionTag fs (osJoin fs.cwd sample)
    · rw [ho] at h; simp at h
    · rfl
  unfold flatSampleStep
  dsimp only
  rw [runG_bind, get_region_tag_run_ok fs _ t _ hsome]
  simp only
  rw [runG_pure]
  rw [flatTagFold_eval tags acc2.2.1 acc2.2.2]
  rfl

theorem flatInner_ok (fs : GFS) (tags : List (String × String)) :
    ∀ (ms : List String) (acc : List (List (String × String)) × Bool × Bool) (t : Trace),
      (∀ m ∈ ms, (pureRegionTag fs (osJoin fs.cwd m)).isSome = true) →
      runG (ms.foldlM (flatSampleStep fs tags) acc) t =
        (Except.ok (acc.1 ++ ms.map (fun m => entryFor tags m (extOf fs m)),
          acc.2.1 || (!ms.isEmpty && tags.any (fun nv => nv.1 == BIN_KEY)),
          acc.2.2 || (!ms.isEmpty && tags.any (fun nv => nv.1 == INVOCATION_KEY))),
         { t with readFiles := t.readFiles ++ ms.map (fun m => osJoin fs.cwd m) }) := by
  intro ms
  induction ms with
  | nil =>
    intro acc t _
    simp only [List.foldlM_nil, runG_pure, List.map_nil, List.append_nil, List.isEmpty_nil,
      Bool.not_true, Bool.false_and, Bool.or_false]
  | cons m ms2 ih =>
    intro acc t hE
    rw [List.foldlM_cons, runG_bind,
      runG_flatSampleStep_ok fs tags acc m t (hE m (List.mem_cons_self _ _))]
    simp only
    rw [ih (acc.1 ++ [entryFor tags m (extOf fs m)],
          acc.2.1 || tags.any (fun nv => nv.1 == BIN_KEY),
          acc.2.2 || tags.any (fun nv => nv.1 == INVOCATION_KEY))
        { t with readFiles := t.readFiles ++ [osJoin fs.cwd m] }
        (fun m2 hm2 => hE m2 (List.mem_cons_of_mem _ hm2))]
    simp only [List.map_cons, List.isEmpty_cons, Bool.not_false, Bool.true_and,
      List.append_assoc, List.singleton_append]
    rw [or_and_absorb acc.2.1 _ _, or_and_absorb acc.2.2 _ _]

theorem flatOuter_ok (fs : GFS) (tags : List (String × String)) :
    ∀ (globs : List String) (acc : List (List (String × String)) × Bool × Bool) (t : Trace),
      (∀ m ∈ matchedFiles fs globs, (pureRegionTag fs (osJoin fs.cwd m)).isSome = true) →
      runG (globs.foldlM
        (fun (acc : List (List (String × String)) × Bool × Bool) s => do
          let ms ← glob_non_yaml fs s
          ms.foldlM (flatSampleStep fs tags) acc) acc) t =
        (Except.ok (acc.1 ++ (matchedFiles fs globs).map (fun m => entryFor tags m (extOf fs m)),
          acc.2.1 || (!(matchedFiles fs globs).isEmpty &&
            tags.any (fun nv => nv.1 == BIN_KEY)),
          acc.2.2 || (!(matchedFiles fs globs).isEmpty &&
            tags.any (fun nv => nv.1 == INVOCATION_KEY))),
         { t with globbed := t.globbed ++ globs,
                  readFiles := t.readFiles ++
                    (matchedFiles fs globs).map (fun m => osJoin fs.cwd m) }) := by
  intro globs
  induction globs with
  | nil =>
    intro acc t _
    simp only [List.foldlM_nil, runG_pure, matchedFiles, List.map_nil, List.append_nil,
      List.isEmpty_nil, Bool.not_true, Bool.false_and, Bool.or_false]
  | cons s globs2 ih =>
    intro acc t hE
    have hmf : matchedFiles fs (s :: globs2) =
        (fs.globResults s).filter nonYamlExt ++ matchedFiles fs globs2 := rfl
    rw [List.foldlM_cons, runG_bind]
    rw [show (do
          let ms ← glob_non_yaml fs s
          ms.foldlM (flatSampleStep fs tags) acc : GenM _) =
        glob_non_yaml fs s >>= fun ms => ms.foldlM (flatSampleStep fs tags) acc from rfl]
    rw [runG_bind, runG_glob_non_yaml]
    simp only
    rw [flatInner_ok fs tags ((fs.globResults s).filter nonYamlExt) acc
      { t with globbed := t.globbed ++ [s] }
      (fun m hm => hE m (by rw [hmf]; exact List.mem_append_left _ hm))]
    dsimp only
    rw [ih _ _ (fun m hm => hE m (by rw [hmf]; exact List.mem_append_right _ hm))]
    rw [hmf]
    simp only [List.map_append, List.append_assoc, List.singleton_append]
    rw [or_and_isEmpty acc.2.1 _ _ _, or_and_isEmpty acc.2.2 _ _ _]

theorem flatLoop_ok (fs : GFS) (tags : List (String × String)) (globs : List String)
    (t : Trace)
    (hE : ∀ m ∈ matchedFiles fs globs, (pureRegionTag fs (osJoin fs.cwd m)).isSome = true) :
    runG (flatLoop fs tags globs) t =
      (Except.ok ((matchedFiles fs globs).map (fun m => entryFor tags m (extOf fs m)),
        !(matchedFiles fs globs).isEmpty && tags.any (fun nv => nv.1 == BIN_KEY),
        !(matchedFiles fs globs).isEmpty && tags.any (fun nv => nv.1 == INVOCATION_KEY)),
       { t with globbed := t.globbed ++ globs,
                readFiles := t.readFiles ++
                  (matchedFiles fs globs).map (fun m => osJoin fs.cwd m) }) := by
  unfold flatLoop
  rw [flatOuter_ok fs tags globs ([], false, false) t hE]
  simp only [List.nil_append, Bool.false_or]

/- ----------------------------------------------------------------------
   Flat v3 round trip (gen_manifest): C5.
   ---------------------------------------------------------------------- -/

theorem string_append_left_cancel (a b c : String) (h : a ++ b = a ++ c) : b = c := by
  have hd : (a ++ b).data = (a ++ c).data := by rw [h]
  rw [String.data_append, String.data_append] at hd
  have h2 := List.append_cancel_left hd
  cases b
  cases c
  exact congrArg String.mk h2

theorem osJoin_right_inj (a b1 b2 : String)
    (h1 : b1.data.head? ≠ some '/') (h2 : b2.data.head? ≠ some '/')
    (heq : osJoin a b1 = osJoin a b2) : b1 = b2 := by
  unfold osJoin at heq
  rw [if_neg h1, if_neg h2] at heq
  by_cases ha : a = ""
  · rw [if_pos ha, if_pos ha] at heq
    exact string_append_left_cancel a b1 b2 heq
  · rw [if_neg ha, if_neg ha] at heq
    by_cases hl : a.data.getLast? = some '/'
    · rw [if_pos hl, if_pos hl] at heq
      exact string_append_left_cancel a b1 b2 heq
    · rw [if_neg hl, if_neg hl] at heq
      exact string_append_left_cancel (a ++ "/") b1 b2 heq

theorem runG_forbid_names_ok (tags : List (String × String)) (forbidden : List String)
    (t : Trace) (h : (offendingNames tags forbidden).isEmpty = true) :
    runG (forbid_names tags forbidden) t = (Except.ok (), t) := by
  unfold forbid_names
  simp only [h, if_true]
  rfl

theorem offendingNames_empty (tags : List (String × String))
    (h : ∀ nv ∈ tags, nv.1 ≠ "sample" ∧ nv.1 ≠ "path") :
    (offendingNames tags ["sample", "path"]).isEmpty = true := by
  unfold offendingNames
  rw [List.isEmpty_iff]
  apply List.filter_eq_nil_iff.mpr
  intro n hn
  rcases List.mem_map.mp hn with ⟨nv, hnv, he⟩
  rcases h nv hnv with ⟨hs, hp⟩
  subst he
  simp [hs, hp]

/-- Full text of a flat v3 manifest with the given entries. -/
def flatRenderText (entries : List (List (String × String))) : String :=
  "\n".intercalate (entries.foldl (fun ls e => ls ++ renderFlatEntry e)
    ["type: manifest/samples", "schema_version: 3", "samples:"]) ++ "\n"

/-- C5 (amended): for a tag list free of the reserved names and sample
files whose extraction succeeds, the flat v3 generation produces exactly
one entry per element of the concatenated glob expansion (so N entries for
N matches, counted with multiplicity); each entry's sample field is the
extraction result for its file and its path field joins the resolved
basepath with the match; the paths are pairwise distinct provided the
expansion has no duplicate match and no match is an absolute path — with
duplicate matches the generated paths repeat (see the counterexample). -/
theorem flat_manifest_roundtrip (fs : GFS) (tags : List (String × String))
    (sample_globs : List String)
    (hNoForbid : ∀ nv ∈ tags, nv.1 ≠ "sample" ∧ nv.1 ≠ "path")
    (hE : ∀ m ∈ matchedFiles fs sample_globs,
      (pureRegionTag fs (osJoin fs.cwd m)).isSome = true) :
    (runG (flatLoop fs tags sample_globs) Trace.empty).1 =
      Except.ok ((matchedFiles fs sample_globs).map (fun m => entryFor tags m (extOf fs m)),
        !(matchedFiles fs sample_globs).isEmpty && tags.any (fun nv => nv.1 == BIN_KEY),
        !(matchedFiles fs sample_globs).isEmpty &&
          tags.any (fun nv => nv.1 == INVOCATION_KEY)) ∧
    ((matchedFiles fs sample_globs).map (fun m => entryFor tags m (extOf fs m))).length =
      (matchedFiles fs sample_globs).length ∧
    (∀ m ∈ matchedFiles fs sample_globs,
      alGetD (entryFor tags m (extOf fs m)) "sample" "" = extOf fs m ∧
      pureRegionTag fs (osJoin fs.cwd m) = some (extOf fs m) ∧
      alGetD (entryFor tags m (extOf fs m)) "path" "" = osJoin (flatBasepath tags) m) ∧
    ((matchedFiles fs sample_globs).Nodup →
      (∀ m ∈ matchedFiles fs sample_globs, m.data.head? ≠ some '/') →
      (((matchedFiles fs sample_globs).map (fun m => entryFor tags m (extOf fs m))).map
        (fun e => alGetD e "path" "")).Nodup) ∧
    (∃ t2, runG (create_flat_manifest_v3 fs tags sample_globs) Trace.empty =
      (Except.ok (flatRenderText ((matchedFiles fs sample_globs).map
        (fun m => entryFor tags m (extOf fs m)))), t2)) := by
  have hsome : ∀ m ∈ matchedFiles fs sample_globs,
      pureRegionTag fs (osJoin fs.cwd m) = some (extOf fs m) := by
    intro m hm
    have h := hE m hm
    unfold extOf
    cases ho : pureRegionTag fs (osJoin fs.cwd m)
    · rw [ho] at h; simp at h
    · rfl
  refine ⟨?_, ?_, ?_, ?_, ?_⟩
  · rw [flatLoop_ok fs tags sample_globs Trace.empty hE]
  · exact List.length_map _ _
  · intro m hm
    refine ⟨?_, hsome m hm, ?_⟩
    · exact entryFor_sample tags m (extOf fs m) (fun nv hnv => (hNoForbid nv hnv).1)
    · exact entryFor_path tags m (extOf fs m) (fun nv hnv => (hNoForbid nv hnv).2)
  · intro hnd habs
    rw [List.map_map]
    have hmapeq :
        (matchedFiles fs sample_globs).map
          ((fun e => alGetD e "path" "") ∘ (fun m => entryFor tags m (extOf fs m))) =
        (matchedFiles fs sample_globs).map (fun m => osJoin (flatBasepath tags) m) := by
      apply List.map_congr_left
      intro m hm
      exact entryFor_path tags m (extOf fs m) (fun nv hnv => (hNoForbid nv hnv).2)
    rw [hmapeq]
    apply List.Nodup.map_on ?_ hnd
    intro x hx y hy hxy
    exact osJoin_right_inj (flatBasepath tags) x y (habs x hx) (habs y hy) hxy
  · unfold create_flat_manifest_v3
    rw [runG_bind,
      runG_forbid_names_ok tags ["sample", "path"] Trace.empty
        (offendingNames_empty tags hNoForbid)]
    dsimp only
    rw [runG_bind, flatLoop_ok fs tags sample_globs Trace.empty hE]
    dsimp only
    cases hw : (!(matchedFiles fs sample_globs).isEmpty &&
        tags.any (fun nv => nv.1 == BIN_KEY)) &&
        !(!(matchedFiles fs sample_globs).isEmpty &&
          tags.any (fun nv => nv.1 == INVOCATION_KEY)) with
    | true => exact ⟨_, rfl⟩
    | false => exact ⟨_, rfl⟩

/-- Filesystem used by the C5 counterexample and witness: two sample files
with one region tag each, globbed by their own names. -/
def fsC5 : GFS :=
  { globResults := fun p => if p = "a.py" then ["a.py"]
      else if p = "b.py" then ["b.py"] else [],
    isFile := fun p => p == "/cwd/a.py" || p == "/cwd/b.py",
    fileText := fun p =>
      if p = "/cwd/a.py" then "# [START tag_a]\n# [END tag_a]\n"
      else "# [START tag_b]\n# [END tag_b]\n",
    cwd := "/cwd" }

/-- Counterexample to C5 as stated: when the same pattern is passed twice
the expansion holds two matches (N = 2) of one file, the flat manifest
holds two entries, and their path fields coincide — the entries' paths are
not unique. -/
theorem flat_manifest_duplicate_path_cex :
    (runG (flatLoop fsC5 [] ["a.py", "a.py"]) Trace.empty).1 =
      Except.ok ([[("path", "./a.py"), ("sample", "tag_a")],
                  [("path", "./a.py"), ("sample", "tag_a")]], false, false) ∧
    (matchedFiles fsC5 ["a.py", "a.py"]).length = 2 ∧
    ¬ (([[("path", "./a.py"), ("sample", "tag_a")],
         [("path", "./a.py"), ("sample", "tag_a")]].map
        (fun e => alGetD e "path" "")).Nodup) := by
  refine ⟨rfl, rfl, by decide⟩

/-- Closed instance of the amended C5: two distinct relative matches give
two entries with distinct paths. -/
theorem flat_manifest_roundtrip_witness :
    ((matchedFiles fsC5 ["a.py", "b.py"]).map
      (fun m => entryFor [("name", "x")] m (extOf fsC5 m))).length =
      (matchedFiles fsC5 ["a.py", "b.py"]).length ∧
    (((matchedFiles fsC5 ["a.py", "b.py"]).map
      (fun m => entryFor [("name", "x")] m (extOf fsC5 m))).map
        (fun e => alGetD e "path" "")).Nodup := by
  have h := flat_manifest_roundtrip fsC5 [("name", "x")] ["a.py", "b.py"]
    (by decide) (by decide)
  exact ⟨h.2.1, h.2.2.2.1 (by decide) (by decide)⟩

/- ----------------------------------------------------------------------
   Deprecation diagnostics on the error channel (gen_manifest): C7.
   ---------------------------------------------------------------------- -/

theorem runG_forbid_names_state (tags : List (String × String)) (forbidden : List String)
    (t : Trace) : (runG (forbid_names tags forbidden) t).2 = t := by
  unfold forbid_names
  cases h : (offendingNames tags forbidden).isEmpty
  · simp only [h, Bool.false_eq_true, if_false]
    rfl
  · simp only [h, if_true]
    rfl

theorem get_region_tag_stderr (fs : GFS) (p : String) (t : Trace) :
    ((runG (get_region_tag fs p) t).2).stderrOut = t.stderrOut := by
  cases hf : fs.isFile p
  · rw [get_region_tag_run_not_file fs p t hf]
  · rw [get_region_tag_run_file fs p t hf]

theorem bind_stderr {α β : Type} (m : GenM α) (k : α → GenM β)
    (hm : ∀ t, ((runG m t).2).stderrOut = t.stderrOut)
    (hk : ∀ a t, ((runG (k a) t).2).stderrOut = t.stderrOut) (t : Trace) :
    ((runG (m >>= k) t).2).stderrOut = t.stderrOut := by
  rw [runG_bind]
  rcases hr : runG m t with ⟨r, t2⟩
  have h2 : t2.stderrOut = t.stderrOut := by rw [← hm t, hr]
  cases r with
  | ok a =>
    simp only
    rw [hk a t2]
    exact h2
  | error e =>
    simp only
    exact h2

theorem foldlM_stderr {β γ : Type} (f : β → γ → GenM β)
    (hf : ∀ b x t, ((runG (f b x) t).2).stderrOut = t.stderrOut) :
    ∀ (l : List γ) (b : β) (t : Trace),
      ((runG (l.foldlM f b) t).2).stderrOut = t.stderrOut := by
  intro l
  induction l with
  | nil => intro b t; rfl
  | cons x xs ih =>
    intro b t
    rw [List.foldlM_cons]
    exact bind_stderr (f b x) _ (hf b x) (fun a t3 => ih a t3) t

theorem glob_non_yaml_stderr (fs : GFS) (s : String) (t : Trace) :
    ((runG (glob_non_yaml fs s) t).2).stderrOut = t.stderrOut := by
  rw [runG_glob_non_yaml]

theorem factoredSampleStep_stderr (fs : GFS) (ls : List String) (srp : String) (t : Trace) :
    ((runG (factoredSampleStep fs ls srp) t).2).stderrOut = t.stderrOut := by
  unfold factoredSampleStep
  dsimp only
  apply bind_stderr
  · exact get_region_tag_stderr fs _
  · intro a t2
    rfl

theorem factoredLoop_stderr (fs : GFS) (globs : List String) (lines : List String) (t : Trace) :
    ((runG (factoredLoop fs globs lines) t).2).stderrOut = t.stderrOut := by
  unfold factoredLoop
  apply foldlM_stderr
  intro ls s t2
  apply bind_stderr
  · exact glob_non_yaml_stderr fs s
  · intro ms t3
    exact foldlM_stderr _ (factoredSampleStep_stderr fs) ms ls t3

theorem factoredFold_flags :
    ∀ (tags : List (String × String)) (acc : List String × Bool × Bool × Bool),
      (tags.foldl factoredTagStep acc).2.1 =
        (acc.2.1 || tags.any (fun nv => nv.1 == BASEPATH_KEY)) ∧
      (tags.foldl factoredTagStep acc).2.2.1 =
        (acc.2.2.1 || tags.any (fun nv => nv.1 == BIN_KEY)) ∧
      (tags.foldl factoredTagStep acc).2.2.2 =
        (acc.2.2.2 || tags.any (fun nv => nv.1 == INVOCATION_KEY)) := by
  intro tags
  induction tags with
  | nil => intro acc; simp
  | cons nv rest ih =>
    intro acc
    simp only [List.foldl_cons, List.any_cons]
    rcases ih (factoredTagStep acc nv) with ⟨ih1, ih2, ih3⟩
    refine ⟨?_, ?_, ?_⟩
    · rw [ih1]
      simp only [factoredTagStep, Bool.or_assoc]
    · rw [ih2]
      simp only [factoredTagStep, Bool.or_assoc]
    · rw [ih3]
      simp only [factoredTagStep, Bool.or_assoc]

theorem runG_flatSampleStep_general (fs : GFS) (tags : List (String × String))
    (acc : List (List (String × String)) × Bool × Bool) (m : String) (t : Trace) :
    runG (flatSampleStep fs tags acc m) t =
      match runG (get_region_tag fs (osJoin fs.cwd m)) t with
      | (Except.ok tagid, t3) =>
        (Except.ok (acc.1 ++ [entryFor tags m tagid],
          acc.2.1 || tags.any (fun nv => nv.1 == BIN_KEY),
          acc.2.2 || tags.any (fun nv => nv.1 == INVOCATION_KEY)), t3)
      | (Except.error e, t3) => (Except.error e, t3) := by
  unfold flatSampleStep
  dsimp only
  rw [runG_bind]
  rcases hr : runG (get_region_tag fs (osJoin fs.cwd m)) t with ⟨rg, t3⟩
  cases rg with
  | ok tagid =>
    simp only
    rw [runG_pure, flatTagFold_eval tags acc.2.1 acc.2.2]
    rfl
  | error e => rfl

theorem flatInner_inv (fs : GFS) (tags : List (String × String)) :
    ∀ (ms : List String) (acc : List (List (String × String)) × Bool × Bool)
      (t : Trace) (r : Except GErr (List (List (String × String)) × Bool × Bool)) (t2 : Trace),
      runG (ms.foldlM (flatSampleStep fs tags) acc) t = (r, t2) →
      t2.stderrOut = t.stderrOut ∧
      (∀ items b1 b2, r = Except.ok (items, b1, b2) →
        b1 = (acc.2.1 || (!ms.isEmpty && tags.any (fun nv => nv.1 == BIN_KEY))) ∧
        b2 = (acc.2.2 || (!ms.isEmpty && tags.any (fun nv => nv.1 == INVOCATION_KEY)))) := by
  intro ms
  induction ms with
  | nil =>
    intro acc t r t2 h
    rw [List.foldlM_nil, runG_pure] at h
    injection h with h1 h2
    subst h1
    subst h2
    refine ⟨rfl, ?_⟩
    intro items b1 b2 hr
    injection hr with hr
    rw [hr]
    simp
  | cons m ms2 ih =>
    intro acc t r t2 h
    rw [List.foldlM_cons, runG_bind, runG_flatSampleStep_general fs tags acc m t] at h
    rcases hg : runG (get_region_tag fs (osJoin fs.cwd m)) t with ⟨rg, t3⟩
    rw [hg] at h
    have hst3 : t3.stderrOut = t.stderrOut := by
      rw [← get_region_tag_stderr fs (osJoin fs.cwd m) t, hg]
    cases rg with
    | ok tagid =>
      simp only at h
      rcases ih _ _ _ _ h with ⟨hstd, hflags⟩
      refine ⟨by rw [hstd, hst3], ?_⟩
      intro items b1 b2 hr
      rcases hflags items b1 b2 hr with ⟨hb1, hb2⟩
      constructor
      · rw [hb1]
        simp only [List.isEmpty_cons, Bool.not_false, Bool.true_and]
        exact or_and_absorb acc.2.1 _ _
      · rw [hb2]
        simp only [List.isEmpty_cons, Bool.not_false, Bool.true_and]
        exact or_and_absorb acc.2.2 _ _
    | error e =>
      simp only at h
      injection h with h1 h2
      subst h2
      refine ⟨hst3, ?_⟩
      intro items b1 b2 hr
      rw [← h1] at hr
      cases hr

theorem flatOuter_inv (fs : GFS) (tags : List (String × String)) :
    ∀ (globs : List String) (acc : List (List (String × String)) × Bool × Bool)
      (t : Trace) (r : Except GErr (List (List (String × String)) × Bool × Bool)) (t2 : Trace),
      runG (globs.foldlM
        (fun (acc : List (List (String × String)) × Bool × Bool) s => do
          let ms ← glob_non_yaml fs s
          ms.foldlM (flatSampleStep fs tags) acc) acc) t = (r, t2) →
      t2.stderrOut = t.stderrOut ∧
      (∀ items b1 b2, r = Except.ok (items, b1, b2) →
        b1 = (acc.2.1 || (!(matchedFiles fs globs).isEmpty &&
          tags.any (fun nv => nv.1 == BIN_KEY))) ∧
        b2 = (acc.2.2 || (!(matchedFiles fs globs).isEmpty &&
          tags.any (fun nv => nv.1 == INVOCATION_KEY)))) := by
  intro globs
  induction globs with
  | nil =>
    intro acc t r t2 h
    rw [List.foldlM_nil, runG_pure] at h
    injection h with h1 h2
    subst h2
    refine ⟨rfl, ?_⟩
    intro items b1 b2 hr
    rw [← h1] at hr
    injection hr with hr
    rw [hr]
    simp [matchedFiles]
  | cons s globs2 ih =>
    intro acc t r t2 h
    rw [List.foldlM_cons, runG_bind] at h
    rw [show (do
          let ms ← glob_non_yaml fs s
          ms.foldlM (flatSampleStep fs tags) acc : GenM _) =
        glob_non_yaml fs s >>= fun ms => ms.foldlM (flatSampleStep fs tags) acc from rfl] at h
    rw [runG_bind, runG_glob_non_yaml] at h
    simp only at h
    rcases hi : runG (((fs.globResults s).filter nonYamlExt).foldlM
        (flatSampleStep fs tags) acc) { t with globbed := t.globbed ++ [s] } with ⟨ri, ti⟩
    rw [hi] at h
    rcases flatInner_inv fs tags _ _ _ _ _ hi with ⟨hsti, hfi⟩
    cases ri with
    | ok acc2 =>
      simp only at h
      rcases ih acc2 ti r t2 h with ⟨hst2, hflags⟩
      refine ⟨by rw [hst2, hsti], ?_⟩
      intro items b1 b2 hr
      rcases hflags items b1 b2 hr with ⟨hb1, hb2⟩
      obtain ⟨i1, c1, c2⟩ := acc2
      rcases hfi i1 c1 c2 rfl with ⟨hc1, hc2⟩
      constructor
      · rw [hb1]
        simp only
        rw [hc1, or_and_isEmpty]
        rfl
      · rw [hb2]
        simp only
        rw [hc2, or_and_isEmpty]
        rfl
    | error e =>
      simp only at h
      injection h with h1 h2
      subst h2
      refine ⟨hsti, ?_⟩
      intro items b1 b2 hr
      rw [← h1] at hr
      cases hr

theorem v2TagStep_state (acc : Option String × List (String × String))
    (nv : String × String) (t : Trace) : (runG (v2TagStep acc nv) t).2 = t := by
  unfold v2TagStep
  cases h1 : (nv.1 == BASEPATH_KEY) <;>
    cases h2 : (nv.1 == "env") <;>
    cases h3 : ALL_LANGS.contains nv.2 <;>
    simp [h1, h2, h3] <;>
    rfl

theorem v2SampleStep_stderr (fs : GFS) (its : List (String × String)) (sample : String)
    (t : Trace) : ((runG (v2SampleStep fs its sample) t).2).stderrOut = t.stderrOut := by
  unfold v2SampleStep
  apply bind_stderr
  · exact get_region_tag_stderr fs _
  · intro a t2
    rfl

theorem path_sample_pairs_v2_stderr (fs : GFS) (globs : List String) (t : Trace) :
    ((runG (path_sample_pairs_v2 fs globs) t).2).stderrOut = t.stderrOut := by
  unfold path_sample_pairs_v2
  apply foldlM_stderr
  intro items s t2
  apply bind_stderr
  · exact glob_non_yaml_stderr fs s
  · intro ms t3
    exact foldlM_stderr _ (v2SampleStep_stderr fs) ms items t3

theorem create_manifest_v2_stderr (fs : GFS) (tags : List (String × String))
    (globs : List String) (t : Trace) :
    ((runG (create_manifest_v2 fs tags globs) t).2).stderrOut = t.stderrOut := by
  unfold create_manifest_v2
  apply bind_stderr
  · intro t2
    exact foldlM_stderr _ (fun b x t3 => by rw [v2TagStep_state]) tags _ t2
  · intro folded t2
    apply bind_stderr
    · exact path_sample_pairs_v2_stderr fs globs
    · intro items t3
      rfl

theorem emit_manifest_v2_stderr (fs : GFS) (tags : List (String × String))
    (globs : List String) (fl : Bool) (t : Trace) :
    ((runG (emit_manifest_v2 fs tags globs fl) t).2).stderrOut = t.stderrOut := by
  unfold emit_manifest_v2
  apply bind_stderr
  · intro t2
    rw [runG_forbid_names_state]
  · intro a t2
    apply bind_stderr
    · exact create_manifest_v2_stderr fs tags globs
    · intro m t3
      rfl

/-- C7 (amended): the deprecation diagnostic for a bin tag without an
invocation tag is written only to the error channel and only by the v3
emitters — the factored emitter writes it on every successful run with
such tags, the flat emitter only when at least one sample file was matched
(its flags are set inside the per-sample loop), and the v2 emitter never
writes it; no emitter touches the error channel on a failing run, and the
returned document value is unaffected. -/
theorem deprecation_diag_amended (fs : GFS) (tags : List (String × String))
    (globs : List String) :
    (∀ fl t, ((runG (emit_manifest_v2 fs tags globs fl) t).2).stderrOut = t.stderrOut) ∧
    (∀ t doc t2, runG (create_factored_manifest_v3 fs tags globs) t = (Except.ok doc, t2) →
      t2.stderrOut = t.stderrOut ++
        (if tags.any (fun nv => nv.1 == BIN_KEY) &&
            !(tags.any (fun nv => nv.1 == INVOCATION_KEY)) then
          [deprecationMsg1, deprecationMsg2] else [])) ∧
    (∀ t e t2, runG (create_factored_manifest_v3 fs tags globs) t = (Except.error e, t2) →
      t2.stderrOut = t.stderrOut) ∧
    (∀ t doc t2, runG (create_flat_manifest_v3 fs tags globs) t = (Except.ok doc, t2) →
      t2.stderrOut = t.stderrOut ++
        (if (!(matchedFiles fs globs).isEmpty && tags.any (fun nv => nv.1 == BIN_KEY)) &&
            !(!(matchedFiles fs globs).isEmpty &&
              tags.any (fun nv => nv.1 == INVOCATION_KEY)) then
          [deprecationMsg1, deprecationMsg2] else [])) ∧
    (∀ t e t2, runG (create_flat_manifest_v3 fs tags globs) t = (Except.error e, t2) →
      t2.stderrOut = t.stderrOut) := by
  refine ⟨emit_manifest_v2_stderr fs tags globs, ?_, ?_, ?_, ?_⟩
  · intro t doc t2 h
    unfold create_factored_manifest_v3 at h
    dsimp only at h
    rw [runG_bind] at h
    rcases hf : runG (forbid_names tags ["sample", "path"]) t with ⟨rf, tf⟩
    have htf : tf = t := by
      rw [← runG_forbid_names_state tags ["sample", "path"] t, hf]
    rw [hf] at h
    cases rf with
    | error e => simp at h
    | ok u =>
      simp only at h
      rw [runG_bind] at h
      rcases hl : runG (factoredLoop fs globs _) tf with ⟨rl, tl⟩
      rw [hl] at h
      have htl : tl.stderrOut = t.stderrOut := by
        rw [← htf, ← factoredLoop_stderr fs globs _ tf, hl]
      cases rl with
      | error e => simp at h
      | ok lines3 =>
        simp only at h
        rcases factoredFold_flags tags
          (["type: manifest/samples", "schema_version: 3", "base: &common"],
            false, false, false) with ⟨-, hb, hi⟩
        simp only [Bool.false_or] at hb hi
        split at h
        · next hcond =>
          have h5 : runG (emitDeprecationWarning >>= fun _ =>
              (pure ("\n".intercalate lines3 ++ "\n") : GenM String)) tl =
              (Except.ok ("\n".intercalate lines3 ++ "\n"),
               { tl with stderrOut := tl.stderrOut ++ [deprecationMsg1] ++ [deprecationMsg2] }) :=
            rfl
          rw [h5] at h
          injection h with h6 h7
          rw [← h7]
          simp only [htl]
          rw [if_pos (by rw [hb, hi] at hcond; exact hcond)]
          simp [List.append_assoc]
        · next hcond =>
          have h5 : runG ((pure PUnit.unit : GenM PUnit) >>= fun _ =>
              (pure ("\n".intercalate lines3 ++ "\n") : GenM String)) tl =
              (Except.ok ("\n".intercalate lines3 ++ "\n"), tl) := rfl
          rw [h5] at h
          injection h with h6 h7
          rw [← h7]
          simp only [htl]
          rw [if_neg]
          · simp
          · rw [hb, hi] at hcond
            simpa using hcond
  · intro t e t2 h
    unfold create_factored_manifest_v3 at h
    dsimp only at h
    rw [runG_bind] at h
    rcases hf : runG (forbid_names tags ["sample", "path"]) t with ⟨rf, tf⟩
    have htf : tf = t := by
      rw [← runG_forbid_names_state tags ["sample", "path"] t, hf]
    rw [hf] at h
    cases rf with
    | error e2 =>
      simp only at h
      injection h with h1 h2
      rw [← h2, htf]
    | ok u =>
      simp only at h
      rw [runG_bind] at h
      rcases hl : runG (factoredLoop fs globs _) tf with ⟨rl, tl⟩
      rw [hl] at h
      have htl : tl.stderrOut = t.stderrOut := by
        rw [← htf, ← factoredLoop_stderr fs globs _ tf, hl]
      cases rl with
      | error e2 =>
        simp only at h
        injection h with h1 h2
        rw [← h2]
        exact htl
      | ok lines3 =>
        simp only at h
        split at h
        · next hcond =>
          have h5 : runG (emitDeprecationWarning >>= fun _ =>
              (pure ("\n".intercalate lines3 ++ "\n") : GenM String)) tl =
              (Except.ok ("\n".intercalate lines3 ++ "\n"),
               { tl with stderrOut := tl.stderrOut ++ [deprecationMsg1] ++ [deprecationMsg2] }) :=
            rfl
          rw [h5] at h
          simp at h
        · next hcond =>
          have h5 : runG ((pure PUnit.unit : GenM PUnit) >>= fun _ =>
              (pure ("\n".intercalate lines3 ++ "\n") : GenM String)) tl =
              (Except.ok ("\n".intercalate lines3 ++ "\n"), tl) := rfl
          rw [h5] at h
          simp at h
  · intro t doc t2 h
    unfold create_flat_manifest_v3 at h
    dsimp only at h
    rw [runG_bind] at h
    rcases hf : runG (forbid_names tags ["sample", "path"]) t with ⟨rf, tf⟩
    have htf : tf = t := by
      rw [← runG_forbid_names_state tags ["sample", "path"] t, hf]
    rw [hf] at h
    cases rf with
    | error e => simp at h
    | ok u =>
      simp only at h
      rw [runG_bind] at h
      rcases hl : runG (flatLoop fs tags globs) tf with ⟨rl, tl⟩
      rw [hl] at h
      have hlinv := flatOuter_inv fs tags globs ([], false, false) tf rl tl hl
      rcases hlinv with ⟨hstl, hflags⟩
      have htl : tl.stderrOut = t.stderrOut := by rw [hstl, htf]
      cases rl with
      | error e => simp at h
      | ok folded =>
        obtain ⟨items, b1, b2⟩ := folded
        rcases hflags items b1 b2 rfl with ⟨hb1, hb2⟩
        simp only [Bool.false_or] at hb1 hb2
        simp only at h
        split at h
        · next hcond =>
          have h5 : ∀ txt : String, runG (emitDeprecationWarning >>= fun _ =>
              (pure txt : GenM String)) tl =
              (Except.ok txt,
               { tl with stderrOut := tl.stderrOut ++ [deprecationMsg1] ++ [deprecationMsg2] }) :=
            fun txt => rfl
          rw [h5] at h
          injection h with h6 h7
          rw [← h7]
          simp only [htl]
          rw [if_pos (by rw [← hb1, ← hb2]; exact hcond)]
          simp [List.append_assoc]
        · next hcond =>
          have h5 : ∀ txt : String, runG ((pure PUnit.unit : GenM PUnit) >>= fun _ =>
              (pure txt : GenM String)) tl = (Except.ok txt, tl) := fun txt => rfl
          rw [h5] at h
          injection h with h6 h7
          rw [← h7]
          simp only [htl]
          rw [if_neg]
          · simp
          · rw [← hb1, ← hb2]
            simpa using hcond
  · intro t e t2 h
    unfold create_flat_manifest_v3 at h
    dsimp only at h
    rw [runG_bind] at h
    rcases hf : runG (forbid_names tags ["sample", "path"]) t with ⟨rf, tf⟩
    have htf : tf = t := by
      rw [← runG_forbid_names_state tags ["sample", "path"] t, hf]
    rw [hf] at h
    cases rf with
    | error e2 =>
      simp only at h
      injection h with h1 h2
      rw [← h2, htf]
    | ok u =>
      simp only at h
      rw [runG_bind] at h
      rcases hl : runG (flatLoop fs tags globs) tf with ⟨rl, tl⟩
      rw [hl] at h
      have hlinv := flatOuter_inv fs tags globs ([], false, false) tf rl tl hl
      rcases hlinv with ⟨hstl, -⟩
      have htl : tl.stderrOut = t.stderrOut := by rw [hstl, htf]
      cases rl with
      | error e2 =>
        simp only at h
        injection h with h1 h2
        rw [← h2]
        exact htl
      | ok folded =>
        simp only at h
        split at h
        · next hcond =>
          have h5 : ∀ txt : String, runG (emitDeprecationWarning >>= fun _ =>
              (pure txt : GenM String)) tl =
              (Except.ok txt,
               { tl with stderrOut := tl.stderrOut ++ [deprecationMsg1] ++ [deprecationMsg2] }) :=
            fun txt => rfl
          rw [h5] at h
          simp at h
        · next hcond =>
          have h5 : ∀ txt : String, runG ((pure PUnit.unit : GenM PUnit) >>= fun _ =>
              (pure txt : GenM String)) tl = (Except.ok txt, tl) := fun txt => rfl
          rw [h5] at h
          simp at h

/-- Counterexample to C7 as stated: the v2 emitter, given a bin tag and no
invocation tag, succeeds yet emits no deprecation diagnostic at all. -/
theorem v2_no_deprecation_diag_cex :
    ([("bin", "python")].any (fun nv => nv.1 == BIN_KEY)) = true ∧
    ([("bin", "python")].any (fun nv => nv.1 == INVOCATION_KEY)) = false ∧
    (runG (emit_manifest_v2 fsC5 [("bin", "python")] [] false) Trace.empty).1 =
      Except.ok (dump { envBlock := [("bin", "python"), ("path", "./")], items := [] }) ∧
    (runG (emit_manifest_v2 fsC5 [("bin", "python")] [] false) Trace.empty).2.stderrOut =
      [] := by
  refine ⟨by decide, by decide, rfl, rfl⟩

/-- Closed instance of the amended C7: with a bin tag and no invocation
tag, a successful factored run writes exactly the two deprecation lines to
stderr, and a flat run that matches no sample writes none. -/
theorem deprecation_diag_amended_witness :
    (runG (create_factored_manifest_v3 fsC5 [("bin", "b")] []) Trace.empty).2.stderrOut =
      [deprecationMsg1, deprecationMsg2] ∧
    (runG (create_flat_manifest_v3 fsC5 [("bin", "b")] []) Trace.empty).2.stderrOut =
      [] := by
  have h := deprecation_diag_amended fsC5 [("bin", "b")] []
  constructor
  · have h2 := h.2.1 Trace.empty _ _ rfl
    exact h2.trans (by decide)
  · have h2 := h.2.2.2.1 Trace.empty _ _ rfl
    exact h2.trans (by decide)

end SampleTester
